import Mathlib

/-!
# Tic-tac-toe room coordinator: room store, game engine and session model

A shallow embedding of `internal/repository/redis_repo.go` (the room store
operations) and `internal/handler/websoket.go` (move processing, winner
detection, the connection registry), followed by theorems about them.

Conventions of the embedding.

* A room is a Redis hash read back as a Go `map[string]string`.  Indexing such
  a map at a missing key yields `""`, so a field that was never written is
  represented by the empty string (the empty byte sequence for `board`).
* A Go string used as a board is indexed byte by byte; a board is the list of
  its bytes, each written as the `Char` with the same code.
* The store is assumed reachable: every Redis call returns without error.
* A Go `error` is an `Option String`: `none` is `nil`, `some msg` carries the
  message of `err.Error()`.
* A run-time panic (index out of range) is the outer `none` of an `Option`.
-/

namespace TicTacToe

/-! ## Data model -/

/-- The fields of a room hash, as read through `map[string]string`. -/
structure Room where
  user1 : String
  user2 : String
  admin : String
  status : String
  board : List Char
  turn : String
  winner : String
deriving DecidableEq, Repr

/-- The hash with no field written: every lookup yields the zero value. -/
def Room.blank : Room :=
  { user1 := "", user2 := "", admin := "", status := "", board := [], turn := "", winner := "" }

/-- The key space of the store: a key holds a hash (`some`) or nothing.
`HGetAll` on a missing key returns a map of length zero. -/
abbrev Store := String → Option Room

/-- Redis `HSET key field value ...`: writes the given fields into the hash at
`key`, creating the hash when the key holds nothing. -/
def HSet (s : Store) (key : String) (updates : Room → Room) : Store :=
  fun k => if k = key then some (updates ((s key).getD Room.blank)) else s k

/-! ## Game engine (`websoket.go`) -/

/-- The table `winPatterns` of `checkWinner`, in source order. -/
def winPatterns : List (Nat × Nat × Nat) :=
  [(0, 1, 2), (3, 4, 5), (6, 7, 8),
   (0, 3, 6), (1, 4, 7), (2, 5, 8),
   (0, 4, 8), (2, 4, 6)]

/-- The loop condition of `checkWinner` for one pattern, with Go's
left-to-right short-circuit evaluation: `none` is an index out of range. -/
def patternHit (board : List Char) (p : Nat × Nat × Nat) : Option Bool :=
  match board[p.1]? with
  | none => none
  | some x =>
    if x = ' ' then some false
    else
      match board[p.2.1]? with
      | none => none
      | some y =>
        if x ≠ y then some false
        else
          match board[p.2.2]? with
          | none => none
          | some z => some (decide (y = z))

/-- The `for _, pattern := range winPatterns` loop of `checkWinner`. -/
def checkWinnerLoop (board : List Char) : List (Nat × Nat × Nat) → Option String
  | [] => some ""
  | p :: rest =>
    match patternHit board p with
    | none => none
    | some true => (board[p.1]?).map String.singleton
    | some false => checkWinnerLoop board rest

/-- Embedding of `checkWinner`: the symbol of the first matching pattern,
`""` when no pattern matches. -/
def checkWinner (board : List Char) : Option String :=
  checkWinnerLoop board winPatterns

/-- Embedding of `contains(board, char)`. -/
def contains (board : List Char) (char : Char) : Bool :=
  match board with
  | [] => false
  | c :: rest => if c = char then true else contains rest char

/-- Embedding of `getNextPlayer`. -/
def getNextPlayer (roomInfo : Room) (currentPlayer : String) : String :=
  if currentPlayer = roomInfo.user1 then roomInfo.user2 else roomInfo.user1

/-! ## Room store operations (`redis_repo.go`) -/

/-- Embedding of `RoomRepository.CreateRoom`: one `HSet` of the six initial
fields; `winner` is not among them. -/
def CreateRoom (s : Store) (roomID admin : String) : Option String × Store :=
  (none, HSet s roomID (fun r =>
    { r with
      user1 := admin
      user2 := ""
      admin := admin
      status := "waiting"
      board := [' ', ' ', ' ', ' ', ' ', ' ', ' ', ' ', ' ']
      turn := admin }))

/-- Embedding of `RoomRepository.JoinRoom`. -/
def JoinRoom (s : Store) (roomID user : String) : Option String × Store :=
  match s roomID with
  | none => (some "room not found", s)
  | some room =>
    if room.user2 ≠ "" then (some "room is full", s)
    else if room.user1 = room.user2 ∨ room.user2 = room.user1 then
      (some "nickname already in use", s)
    else
      let s1 := HSet s roomID (fun r => { r with user2 := user })
      if room.status = "started" then
        (none, HSet s1 roomID (fun r => { r with status := "waiting" }))
      else (none, s1)

/-- Embedding of `RoomRepository.GetRoomInfo`. -/
def GetRoomInfo (s : Store) (roomID : String) : Except String Room :=
  match s roomID with
  | none => .error "room not found"
  | some room => .ok room

/-- Embedding of `RoomRepository.RemoveUser`: an unconditional `HSet`. -/
def RemoveUser (s : Store) (roomID : String) : Option String × Store :=
  (none, HSet s roomID (fun r => { r with user2 := "" }))

/-- Embedding of `RoomRepository.StartGame`. -/
def StartGame (s : Store) (roomID : String) : Option String × Store :=
  match s roomID with
  | none => (some "room not found", s)
  | some room =>
    if room.user2 = "" then (some "cannot start game, room is not full", s)
    else (none, HSet s roomID (fun r => { r with status := "started" }))

/-- Embedding of `RoomRepository.UpdateRoomField`; the map of updates is the
function that overwrites the fields it names. -/
def UpdateRoomField (s : Store) (roomID : String) (updates : Room → Room) :
    Option String × Store :=
  (none, HSet s roomID updates)

/-! ## Move processing (`websoket.go`) -/

/-- Value of one decimal digit, `none` for any other byte. -/
def digitValue (c : Char) : Option Nat :=
  if '0' ≤ c ∧ c ≤ '9' then some (c.toNat - '0'.toNat) else none

/-- Left-to-right accumulation of decimal digits. -/
def parseDigits : List Char → Nat → Option Nat
  | [], acc => some acc
  | c :: rest, acc =>
    match digitValue c with
    | none => none
    | some d => parseDigits rest (acc * 10 + d)

/-- The behaviour of Go's `strconv.Atoi` on a 64-bit platform: an optional
sign, then one or more decimal digits, the value within the range of `int`;
`none` is a non-nil error. -/
def Atoi (position : String) : Option Int :=
  let negative := position.data.head? = some '-'
  let digits :=
    match position.data with
    | '-' :: rest => rest
    | '+' :: rest => rest
    | other => other
  match digits with
  | [] => none
  | _ =>
    match parseDigits digits 0 with
    | none => none
    | some n =>
      let v : Int := if negative then -(n : Int) else (n : Int)
      if -9223372036854775808 ≤ v ∧ v ≤ 9223372036854775807 then some v else none

/-- The symbol written by `processMove` (lines 140-143). -/
def playerSymbol (roomInfo : Room) (player : String) : Char :=
  if player = roomInfo.user2 then 'O' else 'X'

/-- The expression `board[:pos] + playerSymbol + board[pos+1:]` (line 144). -/
def placeSymbol (board : List Char) (pos : Nat) (symbol : Char) : List Char :=
  board.take pos ++ [symbol] ++ board.drop (pos + 1)

/-- The status computed from the winner and the new board (lines 147-153). -/
def moveStatus (winner : String) (board : List Char) : String :=
  if winner ≠ "" then "finished"
  else if !contains board ' ' then "tie"
  else "ongoing"

/-- The four fields written by the `UpdateRoomField` call of `processMove`. -/
def moveUpdates (board : List Char) (turn status winner : String) (r : Room) : Room :=
  { r with board := board, turn := turn, status := status, winner := winner }

/-- Embedding of `processMove` on the store.  The outer `none` is a run-time
panic inside `checkWinner`; otherwise the returned error and the store after
the call.  The final `BroadcastMessage` acts on the connection registry only
and is embedded separately. -/
def processMove (s : Store) (roomID player position : String) :
    Option (Option String × Store) :=
  match GetRoomInfo s roomID with
  | .error e => some (some ("failed to fetch room info: " ++ e), s)
  | .ok roomInfo =>
    if roomInfo.turn ≠ player then some (some "it's not your turn", s)
    else
      match Atoi position with
      | none => some (some "invalid position", s)
      | some pos =>
        if pos < 0 ∨ pos ≥ (roomInfo.board.length : Int) then some (some "invalid position", s)
        else if roomInfo.board[pos.toNat]? ≠ some ' ' then
          some (some "position already occupied", s)
        else
          let board := placeSymbol roomInfo.board pos.toNat (playerSymbol roomInfo player)
          match checkWinner board with
          | none => none
          | some winner =>
            let status := moveStatus winner board
            let s1 := (UpdateRoomField s roomID
              (moveUpdates board (getNextPlayer roomInfo player) status winner)).2
            match GetRoomInfo s1 roomID with
            | .error e => some (some ("failed to fetch updated room info: " ++ e), s1)
            | .ok _ => some (none, s1)

/-! ## Connection registry and connection handling (`websoket.go`) -/

/-- A WebSocket connection, identified by a number. -/
abbrev Conn := Nat

/-- The map `Clients`: a room id is absent (`none`) or mapped to a slice. -/
abbrev Clients := String → Option (List Conn)

/-- The Go expression `h.Clients[roomID]`: the nil slice for a missing key. -/
def connectionsOf (cl : Clients) (roomID : String) : List Conn :=
  (cl roomID).getD []

/-- The statement `h.Clients[roomID] = append(h.Clients[roomID], conn)`. -/
def appendConn (cl : Clients) (roomID : String) (conn : Conn) : Clients :=
  fun k => if k = roomID then some (connectionsOf cl roomID ++ [conn]) else cl k

/-- Embedding of `disconnectRoom`. -/
def disconnectRoom (cl : Clients) (roomID : String) (conn : Conn) : Clients :=
  match cl roomID with
  | none => cl
  | some connections =>
    let updatedConnections := connections.filter (fun c => c ≠ conn)
    if updatedConnections.length = 0 then
      fun k => if k = roomID then none else cl k
    else
      fun k => if k = roomID then some updatedConnections else cl k

/-- Embedding of `BroadcastMessage` on the registry; `sendFails c` tells
whether `WriteMessage` on connection `c` returns an error. -/
def BroadcastMessage (cl : Clients) (roomID : String) (sendFails : Conn → Bool) : Clients :=
  match cl roomID with
  | none => cl
  | some connections =>
    if connections.length = 0 then cl
    else
      let activeConnections := connections.filter (fun c => !sendFails c)
      fun k => if k = roomID then some activeConnections else cl k

/-- Progress of one run of `HandleConnection`, one run per connection. -/
inductive Phase where
  /-- The request has arrived; nothing has been checked. -/
  | idle
  /-- The room was found with status `started` (lines 38-48). -/
  | statusOk (roomID : String)
  /-- The capacity check passed and the mutex was released (lines 51-57). -/
  | admitted (roomID : String)
  /-- The connection was appended to `Clients` (lines 66-68); the read loop runs. -/
  | registered (roomID : String)
  /-- The request was answered with an error before registration. -/
  | refused (msg : String)
  /-- The handler has returned after `disconnectRoom`, or the upgrade failed. -/
  | closed
deriving DecidableEq, Repr

/-- The server state shared by all handlers. -/
structure Server where
  store : Store
  clients : Clients
  phase : Conn → Phase

/-- The atomic steps whose interleavings make up a run of the server: the
mutex-protected sections of `HandleConnection`, a processed `make_move`
message, a broadcast, and the room operations of the repository. -/
inductive Event where
  | statusCheck (roomID : String) (conn : Conn)
  | capacityCheck (conn : Conn)
  | upgradeFailed (conn : Conn)
  | register (conn : Conn)
  | makeMove (conn : Conn) (player position : String)
  | broadcast (roomID : String) (sendFails : Conn → Bool)
  | disconnect (conn : Conn)
  | joinRoom (roomID user : String)
  | removeUser (roomID : String)
  | startGame (roomID : String)

/-- One atomic step of the server; an event that is not enabled in the
current phase of its connection leaves the state unchanged. -/
def step (σ : Server) : Event → Server
  | .statusCheck roomID conn =>
    match σ.phase conn with
    | .idle =>
      if roomID = "" then
        { σ with phase := Function.update σ.phase conn (.refused "room_id is required") }
      else
        match GetRoomInfo σ.store roomID with
        | .error _ => { σ with phase := Function.update σ.phase conn (.refused "Room not found") }
        | .ok roomInfo =>
          if roomInfo.status ≠ "started" then
            { σ with phase := Function.update σ.phase conn (.refused "Room is not started") }
          else { σ with phase := Function.update σ.phase conn (.statusOk roomID) }
    | _ => σ
  | .capacityCheck conn =>
    match σ.phase conn with
    | .statusOk roomID =>
      if (connectionsOf σ.clients roomID).length ≥ 2 then
        { σ with phase := Function.update σ.phase conn (.refused "Room is full") }
      else { σ with phase := Function.update σ.phase conn (.admitted roomID) }
    | _ => σ
  | .upgradeFailed conn =>
    match σ.phase conn with
    | .admitted _ => { σ with phase := Function.update σ.phase conn .closed }
    | _ => σ
  | .register conn =>
    match σ.phase conn with
    | .admitted roomID =>
      { σ with
        clients := appendConn σ.clients roomID conn
        phase := Function.update σ.phase conn (.registered roomID) }
    | _ => σ
  | .makeMove conn player position =>
    match σ.phase conn with
    | .registered roomID =>
      match processMove σ.store roomID player position with
      | none => σ
      | some (_, s1) => { σ with store := s1 }
    | _ => σ
  | .broadcast roomID sendFails =>
    { σ with clients := BroadcastMessage σ.clients roomID sendFails }
  | .disconnect conn =>
    match σ.phase conn with
    | .registered roomID =>
      { σ with
        clients := disconnectRoom σ.clients roomID conn
        phase := Function.update σ.phase conn .closed }
    | _ => σ
  | .joinRoom roomID user => { σ with store := (JoinRoom σ.store roomID user).2 }
  | .removeUser roomID => { σ with store := (RemoveUser σ.store roomID).2 }
  | .startGame roomID => { σ with store := (StartGame σ.store roomID).2 }

/-- A run: the events of an interleaving applied in order. -/
def run (σ : Server) (events : List Event) : Server :=
  events.foldl step σ

/-- The server right after `CreateRoom(roomID, admin)`: no connection yet. -/
def serverAfterCreate (s : Store) (roomID admin : String) : Server :=
  { store := (CreateRoom s roomID admin).2
    clients := fun _ => none
    phase := fun _ => .idle }

/-- The store with no key. -/
def emptyStore : Store := fun _ => none

/-! ## Room operations as a transition system on the store -/

/-- The operations that change a room once it exists. -/
inductive RoomOp where
  | join (roomID user : String)
  | remove (roomID : String)
  | start (roomID : String)
  | move (roomID player position : String)
deriving DecidableEq, Repr

/-- The store after one operation; a panicking move leaves it unchanged. -/
def applyOp (s : Store) : RoomOp → Store
  | .join roomID user => (JoinRoom s roomID user).2
  | .remove roomID => (RemoveUser s roomID).2
  | .start roomID => (StartGame s roomID).2
  | .move roomID player position =>
    match processMove s roomID player position with
    | none => s
    | some (_, s1) => s1

/-- The store after a sequence of operations. -/
def applyOps (s : Store) (ops : List RoomOp) : Store :=
  ops.foldl applyOp s

/-! ## Concrete scenarios -/

/-- The store after `CreateRoom("R", "alice")` on an empty store. -/
def createdStore : Store := (CreateRoom emptyStore "R" "alice").2

/-- The store after bob has joined room `R` and the game was started. -/
def startedStore : Store := applyOps createdStore [.join "R" "bob", .start "R"]

/-- The room held by `startedStore`. -/
def startedRoom : Room :=
  { user1 := "alice", user2 := "bob", admin := "alice", status := "started",
    board := [' ', ' ', ' ', ' ', ' ', ' ', ' ', ' ', ' '], turn := "alice", winner := "" }

/-- The started game after alice has played cell 0. -/
def aliceMovedStore : Store := applyOps startedStore [.move "R" "alice" "0"]

/-- The room held by `aliceMovedStore`. -/
def aliceMovedRoom : Room :=
  { user1 := "alice", user2 := "bob", admin := "alice", status := "ongoing",
    board := ['X', ' ', ' ', ' ', ' ', ' ', ' ', ' ', ' '], turn := "bob", winner := "" }

/-- The store after alice has joined her own room. -/
def sameNameStore : Store := applyOps createdStore [.join "R" "alice"]

/-- The room held by `sameNameStore`. -/
def sameNameRoom : Room :=
  { user1 := "alice", user2 := "alice", admin := "alice", status := "waiting",
    board := [' ', ' ', ' ', ' ', ' ', ' ', ' ', ' ', ' '], turn := "alice", winner := "" }

/-- The started game with X on 0, 1 and O on 3, 4; alice to move. -/
def rowPendingStore : Store :=
  applyOps startedStore
    [.move "R" "alice" "0", .move "R" "bob" "3", .move "R" "alice" "1", .move "R" "bob" "4"]

/-- The room held by `rowPendingStore`. -/
def rowPendingRoom : Room :=
  { user1 := "alice", user2 := "bob", admin := "alice", status := "ongoing",
    board := ['X', 'X', ' ', 'O', 'O', ' ', ' ', ' ', ' '], turn := "alice", winner := "" }

/-- The started game one move before a full board without a line. -/
def tiePendingStore : Store :=
  applyOps startedStore
    [.move "R" "alice" "0", .move "R" "bob" "1", .move "R" "alice" "2", .move "R" "bob" "4",
     .move "R" "alice" "3", .move "R" "bob" "5", .move "R" "alice" "7", .move "R" "bob" "6"]

/-- The room held by `tiePendingStore`. -/
def tiePendingRoom : Room :=
  { user1 := "alice", user2 := "bob", admin := "alice", status := "ongoing",
    board := ['X', 'O', 'X', 'X', 'O', 'O', 'O', 'X', ' '], turn := "alice", winner := "" }

/-- The room held by `createdStore`. -/
def createdRoom : Room :=
  { user1 := "alice", user2 := "", admin := "alice", status := "waiting",
    board := [' ', ' ', ' ', ' ', ' ', ' ', ' ', ' ', ' '], turn := "alice", winner := "" }

/-- Three clients connect to the started room `R` at the same time: each
passes the status check and the capacity check before any of them is
registered. -/
def raceEvents : List Event :=
  [.joinRoom "R" "bob", .startGame "R",
   .statusCheck "R" 1, .statusCheck "R" 2, .statusCheck "R" 3,
   .capacityCheck 1, .capacityCheck 2, .capacityCheck 3,
   .register 1, .register 2, .register 3]

/-- The server after the run `raceEvents`. -/
def raceServer : Server := run (serverAfterCreate emptyStore "R" "alice") raceEvents

/-- The events of a run in which bob is removed after alice's first move. -/
def removalEvents : List Event :=
  [.joinRoom "R" "bob", .startGame "R", .statusCheck "R" 1, .capacityCheck 1, .register 1,
   .makeMove 1 "alice" "0", .removeUser "R"]

/-- A run without `RemoveUser`: join, start, connect, two moves. -/
def playEvents : List Event :=
  [.joinRoom "R" "bob", .startGame "R", .statusCheck "R" 1, .capacityCheck 1, .register 1,
   .makeMove 1 "alice" "0", .makeMove 1 "bob" "4"]

/-- Nine alternating accepted moves after which X holds the row 0-1-2 and the
column 0-3-6; no line is complete before the last move. -/
def doubleLineOps : List RoomOp :=
  [.join "R" "bob", .start "R",
   .move "R" "alice" "1", .move "R" "bob" "4", .move "R" "alice" "2", .move "R" "bob" "5",
   .move "R" "alice" "3", .move "R" "bob" "7", .move "R" "alice" "6", .move "R" "bob" "8",
   .move "R" "alice" "0"]

/-- X completes the row 0-1-2, then O plays on and completes the row 3-4-5. -/
def playOnOps : List RoomOp :=
  [.join "R" "bob", .start "R",
   .move "R" "alice" "0", .move "R" "bob" "3", .move "R" "alice" "1", .move "R" "bob" "4",
   .move "R" "alice" "2", .move "R" "bob" "5"]

/-- The registry with the single connection 1 registered for room `R`. -/
def loneRegistry : Clients := appendConn (fun _ => none) "R" 1

/-- A run in which the only connection of room `R` is registered and a
broadcast to the room then fails on it. -/
def failedBroadcastEvents : List Event :=
  [.joinRoom "R" "bob", .startGame "R", .statusCheck "R" 1, .capacityCheck 1, .register 1,
   .broadcast "R" (fun _ => true)]

/-- The started game with X on 6, 7 and O on 0, 1; alice to move. -/
def finishPendingStore : Store :=
  applyOps startedStore
    [.move "R" "alice" "6", .move "R" "bob" "0", .move "R" "alice" "7", .move "R" "bob" "1"]

/-- The room held by `finishPendingStore`. -/
def finishPendingRoom : Room :=
  { user1 := "alice", user2 := "bob", admin := "alice", status := "ongoing",
    board := ['O', 'O', ' ', ' ', ' ', ' ', 'X', 'X', ' '], turn := "alice", winner := "" }

/-- The game after alice has completed the row 6-7-8. -/
def finishedStore : Store := applyOps finishPendingStore [.move "R" "alice" "8"]

/-- The room held by `finishedStore`. -/
def finishedRoom : Room :=
  { user1 := "alice", user2 := "bob", admin := "alice", status := "finished",
    board := ['O', 'O', ' ', ' ', ' ', ' ', 'X', 'X', 'X'], turn := "bob", winner := "X" }

/-! ## Specification vocabulary for lines -/

/-- The eight lines as the specification lists them: rows, columns, diagonals. -/
def specLines : List (Nat × Nat × Nat) :=
  [(0, 1, 2), (3, 4, 5), (6, 7, 8),
   (0, 3, 6), (1, 4, 7), (2, 5, 8),
   (0, 4, 8), (2, 4, 6)]

/-- A line consists of three equal non-space cells. -/
def lineUniform (board : List Char) (p : Nat × Nat × Nat) : Prop :=
  ∃ c : Char, c ≠ ' ' ∧ board[p.1]? = some c ∧ board[p.2.1]? = some c ∧ board[p.2.2]? = some c

instance (board : List Char) (p : Nat × Nat × Nat) : Decidable (lineUniform board p) :=
  match h1 : board[p.1]? with
  | none => isFalse (by rintro ⟨c, _, h, _⟩; rw [h1] at h; cases h)
  | some c =>
    if h : c ≠ ' ' ∧ board[p.2.1]? = some c ∧ board[p.2.2]? = some c then
      isTrue ⟨c, h.1, h1, h.2.1, h.2.2⟩
    else
      isFalse (by
        rintro ⟨d, hd, hd1, hd2, hd3⟩
        rw [h1] at hd1
        cases hd1
        exact h ⟨hd, hd2, hd3⟩)

/-- The cell alphabet of a board. -/
def validCell (c : Char) : Prop := c = ' ' ∨ c = 'X' ∨ c = 'O'

/-- The position is a string-encoded integer `n` in `0..8`. -/
def encodesCell (position : String) (n : Nat) : Prop :=
  n ≤ 8 ∧ Atoi position = some (n : Int)

/-- The decimal digits of the cell indices 0..8, in order. -/
def cellDigits : List Char := ['0', '1', '2', '3', '4', '5', '6', '7', '8']

/-- The position is a string-encoded integer `n` in `0..8`, as decimal
notation writes it: an optional sign, any number of leading zeros, then the
digit of `n`; a minus sign stands only in front of zero. -/
def cellNumeral (position : String) (n : Nat) : Prop :=
  ∃ sign zeros d, position.data = sign ++ zeros ++ [d] ∧ cellDigits[n]? = some d ∧
    (sign = [] ∨ sign = ['+'] ∨ (sign = ['-'] ∧ n = 0)) ∧ ∀ c ∈ zeros, c = '0'

/-- The store after an accepted move: the four written fields replace the old
ones at `roomID`. -/
def storeAfterMove (s : Store) (roomID : String) (room : Room) (player : String) (n : Nat)
    (winner : String) : Store :=
  HSet s roomID
    (moveUpdates (placeSymbol room.board n (playerSymbol room player))
      (getNextPlayer room player)
      (moveStatus winner (placeSymbol room.board n (playerSymbol room player)))
      winner)

/-- The event is a call of `RemoveUser`. -/
def Event.isRemoveUser : Event → Bool
  | .removeUser _ => true
  | _ => false

/-- The connection handler in this phase serves room `roomID` and has passed
the status check. -/
def servesRoom (roomID : String) (ph : Phase) : Prop :=
  ph = .statusOk roomID ∨ ph = .admitted roomID ∨ ph = .registered roomID

/-- The invariant behind the turn property: the room exists; its turn is
user1 or a non-empty user2; a started room and a room served by a connection
handler have a second user. -/
def turnInv (roomID : String) (σ : Server) : Prop :=
  ∃ room, σ.store roomID = some room ∧
    (room.turn = room.user1 ∨ (room.turn = room.user2 ∧ room.user2 ≠ "")) ∧
    (room.status = "started" → room.user2 ≠ "") ∧
    (∀ c, servesRoom roomID (σ.phase c) → room.user2 ≠ "")

/-- The status values the code writes. -/
def writtenStatus (status : String) : Prop :=
  status = "waiting" ∨ status = "started" ∨ status = "ongoing" ∨ status = "finished" ∨
    status = "tie"

/-- Every index of a pattern lies inside the board. -/
def patternInBounds (board : List Char) (p : Nat × Nat × Nat) : Prop :=
  p.1 < board.length ∧ p.2.1 < board.length ∧ p.2.2 < board.length

/-- The board invariant of a room: exactly 9 cells, each a space, X or O. -/
def boardInv (roomID : String) (s : Store) : Prop :=
  ∃ room, s roomID = some room ∧ room.board.length = 9 ∧ ∀ c ∈ room.board, validCell c

/-- No line of the board is uniform and non-empty. -/
def noLine (board : List Char) : Bool :=
  decide (∀ p ∈ specLines, ¬ lineUniform board p)

/-- A move on room `roomID` is made only while its board has no complete line;
every other operation is unrestricted. -/
def moveAllowed (roomID : String) (s : Store) : RoomOp → Bool
  | .move r _ _ =>
    if r = roomID then
      match s roomID with
      | some room => noLine room.board
      | none => true
    else true
  | _ => true

/-- Along the sequence, every move on room `roomID` is made before any line of
its board is complete. -/
def movesBeforeWin (roomID : String) : Store → List RoomOp → Bool
  | _, [] => true
  | s, op :: rest => moveAllowed roomID s op && movesBeforeWin roomID (applyOp s op) rest

/-- All uniform non-empty lines of the board hold the same symbol. -/
def sameSymbolLines (board : List Char) : Prop :=
  ∀ p ∈ specLines, ∀ q ∈ specLines, lineUniform board p → lineUniform board q →
    board[p.1]? = board[q.1]?

/-- The invariant behind the scan-order property. -/
def lineInv (roomID : String) (s : Store) : Prop :=
  ∃ room, s roomID = some room ∧ room.board.length = 9 ∧ sameSymbolLines room.board

/-- No room id is mapped to an empty connection list. -/
def noEmptyEntry (cl : Clients) : Prop :=
  ∀ k conns, cl k = some conns → conns ≠ []

/-- The operation is a make_move. -/
def RoomOp.isMove : RoomOp → Bool
  | .move _ _ _ => true
  | _ => false

/-- The recorded result of a finished game: status "finished", a non-empty
winner that is the result of `checkWinner` on the board, a uniform line. -/
def finishedInv (roomID : String) (s : Store) : Prop :=
  ∃ room, s roomID = some room ∧ room.status = "finished" ∧ room.winner ≠ "" ∧
    checkWinner room.board = some room.winner ∧ ∃ p ∈ specLines, lineUniform room.board p

/-! ## Lemmas on the winner scan -/

theorem singleton_ne_empty (c : Char) : String.singleton c ≠ "" := by
  intro h
  have h2 := congrArg String.length h
  simp [String.singleton] at h2

theorem lineUniform_iff (board : List Char) (p : Nat × Nat × Nat)
    (h1 : p.1 < board.length) (h2 : p.2.1 < board.length) (h3 : p.2.2 < board.length) :
    lineUniform board p ↔
      board[p.1] ≠ ' ' ∧ board[p.1] = board[p.2.1] ∧ board[p.2.1] = board[p.2.2] := by
  unfold lineUniform
  rw [List.getElem?_eq_getElem h1, List.getElem?_eq_getElem h2, List.getElem?_eq_getElem h3]
  constructor
  · rintro ⟨c, hc, e1, e2, e3⟩
    have e1 := Option.some.inj e1
    have e2 := Option.some.inj e2
    have e3 := Option.some.inj e3
    exact ⟨by rw [e1]; exact hc, e1.trans e2.symm, e2.trans e3.symm⟩
  · rintro ⟨hx, hy, hz⟩
    exact ⟨board[p.1], hx, rfl, by rw [hy], by rw [hy, hz]⟩

theorem patternHit_of_inBounds (board : List Char) (p : Nat × Nat × Nat)
    (hb : patternInBounds board p) :
    patternHit board p = some (decide (lineUniform board p)) := by
  obtain ⟨h1, h2, h3⟩ := hb
  have hiff := lineUniform_iff board p h1 h2 h3
  unfold patternHit
  rw [List.getElem?_eq_getElem h1, List.getElem?_eq_getElem h2, List.getElem?_eq_getElem h3]
  by_cases hx : board[p.1] = ' '
  · have hn : ¬ lineUniform board p := fun hu => (hiff.mp hu).1 hx
    simp only [if_pos hx, decide_eq_false hn]
  · by_cases hy : board[p.1] = board[p.2.1]
    · have hy2 : ¬ (board[p.1] ≠ board[p.2.1]) := fun hne => hne hy
      by_cases hz : board[p.2.1] = board[p.2.2]
      · have hu : lineUniform board p := hiff.mpr ⟨hx, hy, hz⟩
        simp only [if_neg hx, if_neg hy2, decide_eq_true hz, decide_eq_true hu]
      · have hn : ¬ lineUniform board p := fun hu => hz (hiff.mp hu).2.2
        simp only [if_neg hx, if_neg hy2, decide_eq_false hz, decide_eq_false hn]
    · have hn : ¬ lineUniform board p := fun hu => hy (hiff.mp hu).2.1
      have hy2 : board[p.1] ≠ board[p.2.1] := hy
      simp only [if_neg hx, if_pos hy2, decide_eq_false hn]

theorem checkWinnerLoop_none (board : List Char) (ps : List (Nat × Nat × Nat))
    (hb : ∀ q ∈ ps, patternInBounds board q) (hn : ∀ q ∈ ps, ¬ lineUniform board q) :
    checkWinnerLoop board ps = some "" := by
  induction ps with
  | nil => rfl
  | cons q rest ih =>
    have hq := patternHit_of_inBounds board q (hb q (List.mem_cons_self _ _))
    rw [decide_eq_false (hn q (List.mem_cons_self _ _))] at hq
    simp only [checkWinnerLoop, hq]
    exact ih (fun r hr => hb r (List.mem_cons_of_mem _ hr))
      (fun r hr => hn r (List.mem_cons_of_mem _ hr))

theorem checkWinnerLoop_first (board : List Char) (pre : List (Nat × Nat × Nat))
    (p : Nat × Nat × Nat) (post : List (Nat × Nat × Nat))
    (hb : ∀ q ∈ pre ++ p :: post, patternInBounds board q)
    (hp : lineUniform board p) (hpre : ∀ q ∈ pre, ¬ lineUniform board q) :
    checkWinnerLoop board (pre ++ p :: post) = (board[p.1]?).map String.singleton := by
  induction pre with
  | nil =>
    have hq := patternHit_of_inBounds board p (hb p (by simp))
    rw [decide_eq_true hp] at hq
    simp only [List.nil_append, checkWinnerLoop, hq]
  | cons q rest ih =>
    have hq := patternHit_of_inBounds board q (hb q (by simp))
    rw [decide_eq_false (hpre q (List.mem_cons_self _ _))] at hq
    simp only [List.cons_append, checkWinnerLoop, hq]
    exact ih (fun r hr => hb r (by simp only [List.cons_append, List.mem_cons]; exact Or.inr hr))
      (fun r hr => hpre r (List.mem_cons_of_mem _ hr))

/-- Splits a pattern list at its first uniform line. -/
theorem exists_first_uniform (board : List Char) (ps : List (Nat × Nat × Nat))
    (h : ∃ p ∈ ps, lineUniform board p) :
    ∃ pre p post, ps = pre ++ p :: post ∧ lineUniform board p ∧
      ∀ q ∈ pre, ¬ lineUniform board q := by
  induction ps with
  | nil => obtain ⟨p, hp, _⟩ := h; cases hp
  | cons q rest ih =>
    by_cases hq : lineUniform board q
    · exact ⟨[], q, rest, rfl, hq, by simp⟩
    · obtain ⟨p, hp, hu⟩ := h
      rcases List.mem_cons.mp hp with rfl | hp
      · exact absurd hu hq
      · obtain ⟨pre, p1, post, he, hu1, hpre⟩ := ih ⟨p, hp, hu⟩
        refine ⟨q :: pre, p1, post, by rw [he]; rfl, hu1, ?_⟩
        intro r hr
        rcases List.mem_cons.mp hr with rfl | hr
        · exact hq
        · exact hpre r hr

theorem winPatterns_inBounds (board : List Char) (hlen : board.length = 9) :
    ∀ q ∈ winPatterns, patternInBounds board q := by
  intro q hq
  simp only [winPatterns, List.mem_cons, List.mem_singleton, List.not_mem_nil, or_false] at hq
  rcases hq with rfl | rfl | rfl | rfl | rfl | rfl | rfl | rfl <;>
    simp [patternInBounds, hlen]

theorem checkWinner_total (board : List Char) (hlen : board.length = 9) :
    ∃ r, checkWinner board = some r := by
  by_cases h : ∃ p ∈ winPatterns, lineUniform board p
  · obtain ⟨pre, p, post, he, hu, hpre⟩ := exists_first_uniform board winPatterns h
    have hb := winPatterns_inBounds board hlen
    have hpb : patternInBounds board p := hb p (by rw [he]; simp)
    have hp1 : p.1 < board.length := hpb.1
    rw [he] at hb
    refine ⟨String.singleton board[p.1], ?_⟩
    unfold checkWinner
    rw [he, checkWinnerLoop_first board pre p post hb hu hpre,
      List.getElem?_eq_getElem hp1]
    rfl
  · exact ⟨"", checkWinnerLoop_none board winPatterns (winPatterns_inBounds board hlen)
      (fun q hq hu => h ⟨q, hq, hu⟩)⟩

/-! ## Lemmas on the store and on move processing -/

theorem HSet_same (s : Store) (key : String) (f : Room → Room) :
    HSet s key f key = some (f ((s key).getD Room.blank)) := by
  simp [HSet]

theorem HSet_other (s : Store) (key k : String) (f : Room → Room) (h : k ≠ key) :
    HSet s key f k = s k := by
  simp [HSet, h]

theorem placeSymbol_eq_set (board : List Char) (n : Nat) (c : Char) (h : n < board.length) :
    placeSymbol board n c = board.set n c := by
  unfold placeSymbol
  rw [List.set_eq_take_append_cons_drop, if_pos h]
  simp

theorem placeSymbol_length (board : List Char) (n : Nat) (c : Char) (h : n < board.length) :
    (placeSymbol board n c).length = board.length := by
  rw [placeSymbol_eq_set board n c h, List.length_set]

/-- Case analysis of `processMove` on an existing room: the three rejections,
each leaving the store as it was, or the accepted move. -/
theorem processMove_cases (s : Store) (roomID player position : String) (room : Room)
    (hroom : s roomID = some room) :
    (room.turn ≠ player ∧
      processMove s roomID player position = some (some "it's not your turn", s)) ∨
    (room.turn = player ∧
      (Atoi position = none ∨
        ∃ v : Int, Atoi position = some v ∧ (v < 0 ∨ v ≥ (room.board.length : Int))) ∧
      processMove s roomID player position = some (some "invalid position", s)) ∨
    (room.turn = player ∧
      (∃ n : Nat, Atoi position = some (n : Int) ∧ n < room.board.length ∧
        room.board[n]? ≠ some ' ') ∧
      processMove s roomID player position = some (some "position already occupied", s)) ∨
    (room.turn = player ∧
      ∃ n : Nat, Atoi position = some (n : Int) ∧ n < room.board.length ∧
        room.board[n]? = some ' ' ∧
        ((checkWinner (placeSymbol room.board n (playerSymbol room player)) = none ∧
            processMove s roomID player position = none) ∨
          ∃ w, checkWinner (placeSymbol room.board n (playerSymbol room player)) = some w ∧
            processMove s roomID player position =
              some (none, storeAfterMove s roomID room player n w))) := by
  by_cases hturn : room.turn = player
  swap
  · left
    refine ⟨hturn, ?_⟩
    simp only [processMove, GetRoomInfo, hroom]
    rw [if_pos hturn]
  right
  cases hpos : Atoi position with
  | none =>
    left
    refine ⟨hturn, Or.inl rfl, ?_⟩
    simp only [processMove, GetRoomInfo, hroom, hpos]
    rw [if_neg (fun h => h hturn)]
  | some v =>
    by_cases hrange : v < 0 ∨ v ≥ (room.board.length : Int)
    · left
      refine ⟨hturn, Or.inr ⟨v, rfl, hrange⟩, ?_⟩
      simp only [processMove, GetRoomInfo, hroom, hpos]
      rw [if_neg (fun h => h hturn), if_pos hrange]
    · right
      have hv0 : 0 ≤ v := by
        by_contra h
        exact hrange (Or.inl (lt_of_not_ge h))
      obtain ⟨n, rfl⟩ := Int.eq_ofNat_of_zero_le hv0
      have hn : n < room.board.length := by
        by_contra h
        exact hrange (Or.inr (by exact_mod_cast (not_lt.mp h)))
      by_cases hcell : room.board[n]? = some ' '
      swap
      · left
        refine ⟨hturn, ⟨n, rfl, hn, hcell⟩, ?_⟩
        simp only [processMove, GetRoomInfo, hroom, hpos, Int.toNat_ofNat]
        rw [if_neg (fun h => h hturn), if_neg hrange, if_pos hcell]
      · right
        refine ⟨hturn, n, rfl, hn, hcell, ?_⟩
        cases hw : checkWinner (placeSymbol room.board n (playerSymbol room player)) with
        | none =>
          left
          refine ⟨rfl, ?_⟩
          simp only [processMove, GetRoomInfo, hroom, hpos, Int.toNat_ofNat]
          rw [if_neg (fun h => h hturn), if_neg hrange, if_neg (fun h => h hcell)]
          simp only [hw]
        | some w =>
          right
          refine ⟨w, rfl, ?_⟩
          simp only [processMove, GetRoomInfo, hroom, hpos, Int.toNat_ofNat]
          rw [if_neg (fun h => h hturn), if_neg hrange, if_neg (fun h => h hcell)]
          simp only [hw, UpdateRoomField, HSet_same, storeAfterMove]

theorem encodesCell_unique (position : String) (m n : Nat)
    (hm : encodesCell position m) (hn : Atoi position = some (n : Int)) : m = n := by
  have h := hm.2
  rw [hn] at h
  exact_mod_cast (Option.some.inj h).symm

/-- An accepted move on a 9-cell board never panics. -/
theorem checkWinner_placeSymbol_total (board : List Char) (n : Nat) (c : Char)
    (hlen : board.length = 9) (hn : n < board.length) :
    ∃ w, checkWinner (placeSymbol board n c) = some w :=
  checkWinner_total _ (by rw [placeSymbol_length board n c hn, hlen])

theorem patternHit_sound (board : List Char) (p : Nat × Nat × Nat) (b : Bool)
    (h : patternHit board p = some b) : b = true ↔ lineUniform board p := by
  unfold patternHit at h
  unfold lineUniform
  cases h1 : board[p.1]? with
  | none => rw [h1] at h; cases h
  | some x =>
    rw [h1] at h
    simp only at h
    by_cases hx : x = ' '
    · rw [if_pos hx] at h
      cases h
      refine iff_of_false (by simp) ?_
      rintro ⟨c, hc, e1, _⟩
      exact hc ((Option.some.inj e1).symm.trans hx)
    · rw [if_neg hx] at h
      cases h2 : board[p.2.1]? with
      | none => rw [h2] at h; cases h
      | some y =>
        rw [h2] at h
        simp only at h
        by_cases hy : x ≠ y
        · rw [if_pos hy] at h
          cases h
          refine iff_of_false (by simp) ?_
          rintro ⟨c, _, e1, e2, _⟩
          exact hy ((Option.some.inj e1).trans (Option.some.inj e2).symm)
        · rw [if_neg hy] at h
          have hxy : x = y := not_not.mp hy
          cases h3 : board[p.2.2]? with
          | none => rw [h3] at h; cases h
          | some z =>
            rw [h3] at h
            cases Option.some.inj h
            rw [decide_eq_true_iff]
            constructor
            · intro hyz
              exact ⟨x, hx, rfl, by rw [hxy], by rw [hxy, hyz]⟩
            · rintro ⟨c, _, _, e2, e3⟩
              exact (Option.some.inj e2).trans (Option.some.inj e3).symm

/-- Whenever the scan returns, its result is non-empty exactly when some
scanned line is uniform. -/
theorem checkWinnerLoop_sound (board : List Char) (ps : List (Nat × Nat × Nat)) (w : String)
    (h : checkWinnerLoop board ps = some w) :
    w ≠ "" ↔ ∃ p ∈ ps, lineUniform board p := by
  induction ps with
  | nil =>
    cases Option.some.inj h
    simp
  | cons q rest ih =>
    unfold checkWinnerLoop at h
    cases hq : patternHit board q with
    | none => rw [hq] at h; cases h
    | some b =>
      rw [hq] at h
      have hs := patternHit_sound board q b hq
      cases b with
      | true =>
        simp only at h
        have hu : lineUniform board q := hs.mp rfl
        cases h1 : board[q.1]? with
        | none => rw [h1] at h; cases h
        | some c =>
          rw [h1] at h
          cases Option.some.inj h
          exact iff_of_true (singleton_ne_empty c) ⟨q, List.mem_cons_self _ _, hu⟩
      | false =>
        simp only at h
        have hn : ¬ lineUniform board q := fun hu => by
          have := hs.mpr hu
          cases this
        rw [ih h]
        constructor
        · rintro ⟨p, hp, hu⟩
          exact ⟨p, List.mem_cons_of_mem _ hp, hu⟩
        · rintro ⟨p, hp, hu⟩
          rcases List.mem_cons.mp hp with rfl | hp
          · exact absurd hu hn
          · exact ⟨p, hp, hu⟩

theorem contains_iff (board : List Char) (c : Char) : contains board c = true ↔ c ∈ board := by
  induction board with
  | nil => simp [contains]
  | cons d rest ih =>
    unfold contains
    by_cases h : d = c
    · simp [h]
    · rw [if_neg h, ih]
      constructor
      · exact fun hm => List.mem_cons_of_mem _ hm
      · intro hm
        rcases List.mem_cons.mp hm with rfl | hm
        · exact absurd rfl h
        · exact hm

/-- The accepted outcome of `processMove`, read back from its result. -/
theorem processMove_accepted (s : Store) (roomID player position : String) (room : Room)
    (s1 : Store) (hroom : s roomID = some room)
    (hacc : processMove s roomID player position = some (none, s1)) :
    room.turn = player ∧
      ∃ n : Nat, Atoi position = some (n : Int) ∧ n < room.board.length ∧
        room.board[n]? = some ' ' ∧
        ∃ w, checkWinner (placeSymbol room.board n (playerSymbol room player)) = some w ∧
          s1 = storeAfterMove s roomID room player n w := by
  rcases processMove_cases s roomID player position room hroom with
    ⟨_, hres⟩ | ⟨_, _, hres⟩ | ⟨_, _, hres⟩ | ⟨hturn, n, hpos, hn, hcell, hres⟩
  · rw [hres] at hacc
    simp at hacc
  · rw [hres] at hacc
    simp at hacc
  · rw [hres] at hacc
    simp at hacc
  · rcases hres with ⟨_, hres⟩ | ⟨w, hw, hres⟩
    · rw [hres] at hacc
      cases hacc
    · rw [hres] at hacc
      have h2 := Option.some.inj hacc
      exact ⟨hturn, n, hpos, hn, hcell, w, hw, (Prod.mk.inj h2).2.symm⟩

theorem storeAfterMove_same (s : Store) (roomID : String) (room : Room) (player : String)
    (n : Nat) (w : String) (hroom : s roomID = some room) :
    storeAfterMove s roomID room player n w roomID =
      some { room with
        board := placeSymbol room.board n (playerSymbol room player)
        turn := getNextPlayer room player
        status := moveStatus w (placeSymbol room.board n (playerSymbol room player))
        winner := w } := by
  simp [storeAfterMove, HSet_same, hroom, moveUpdates]

/-! ## Effect of each operation on one room -/

theorem JoinRoom_other (s : Store) (roomID user k : String) (hk : k ≠ roomID) :
    (JoinRoom s roomID user).2 k = s k := by
  unfold JoinRoom
  cases h : s roomID with
  | none => rfl
  | some room =>
    simp only
    split_ifs <;> simp [HSet_other _ _ _ _ hk]

theorem JoinRoom_effect (s : Store) (roomID user : String) (room : Room)
    (h : s roomID = some room) :
    (JoinRoom s roomID user).2 roomID = some room ∨
    (room.user2 = "" ∧ room.status ≠ "started" ∧
      (JoinRoom s roomID user).2 roomID = some { room with user2 := user }) ∨
    (room.user2 = "" ∧ room.status = "started" ∧
      (JoinRoom s roomID user).2 roomID = some { room with user2 := user, status := "waiting" }) := by
  unfold JoinRoom
  rw [h]
  simp only
  by_cases h2 : room.user2 ≠ ""
  · left
    rw [if_pos h2]
    exact h
  · rw [if_neg h2]
    have h2e : room.user2 = "" := not_not.mp h2
    by_cases h3 : room.user1 = room.user2 ∨ room.user2 = room.user1
    · left
      rw [if_pos h3]
      exact h
    · right
      rw [if_neg h3]
      by_cases h4 : room.status = "started"
      · right
        rw [if_pos h4]
        exact ⟨h2e, h4, by simp [HSet_same, h]⟩
      · left
        rw [if_neg h4]
        exact ⟨h2e, h4, by simp [HSet_same, h]⟩

theorem StartGame_other (s : Store) (roomID k : String) (hk : k ≠ roomID) :
    (StartGame s roomID).2 k = s k := by
  unfold StartGame
  cases h : s roomID with
  | none => rfl
  | some room =>
    simp only
    split_ifs <;> simp [HSet_other _ _ _ _ hk]

theorem StartGame_effect (s : Store) (roomID : String) (room : Room)
    (h : s roomID = some room) :
    (StartGame s roomID).2 roomID = some room ∨
    (room.user2 ≠ "" ∧ (StartGame s roomID).2 roomID = some { room with status := "started" }) := by
  unfold StartGame
  rw [h]
  simp only
  by_cases h2 : room.user2 = ""
  · left
    rw [if_pos h2]
    exact h
  · right
    rw [if_neg h2]
    exact ⟨h2, by simp [HSet_same, h]⟩

theorem RemoveUser_other (s : Store) (roomID k : String) (hk : k ≠ roomID) :
    (RemoveUser s roomID).2 k = s k := by
  simp [RemoveUser, HSet_other _ _ _ _ hk]

theorem RemoveUser_effect (s : Store) (roomID : String) (room : Room)
    (h : s roomID = some room) :
    (RemoveUser s roomID).2 roomID = some { room with user2 := "" } := by
  simp [RemoveUser, HSet_same, h]

theorem processMove_other (s : Store) (roomID player position : String)
    (err : Option String) (s1 : Store) (k : String) (hk : k ≠ roomID)
    (hres : processMove s roomID player position = some (err, s1)) : s1 k = s k := by
  cases h : s roomID with
  | none =>
    simp only [processMove, GetRoomInfo, h] at hres
    rw [← (Prod.mk.inj (Option.some.inj hres)).2]
  | some room =>
    rcases processMove_cases s roomID player position room h with
      ⟨_, h1⟩ | ⟨_, _, h1⟩ | ⟨_, _, h1⟩ | ⟨_, n, _, _, _, h1⟩
    · rw [h1] at hres
      rw [← (Prod.mk.inj (Option.some.inj hres)).2]
    · rw [h1] at hres
      rw [← (Prod.mk.inj (Option.some.inj hres)).2]
    · rw [h1] at hres
      rw [← (Prod.mk.inj (Option.some.inj hres)).2]
    · rcases h1 with ⟨_, h1⟩ | ⟨w, _, h1⟩
      · rw [h1] at hres
        cases hres
      · rw [h1] at hres
        rw [← (Prod.mk.inj (Option.some.inj hres)).2]
        exact HSet_other _ _ _ _ hk

theorem processMove_effect (s : Store) (roomID player position : String) (room : Room)
    (err : Option String) (s1 : Store) (h : s roomID = some room)
    (hres : processMove s roomID player position = some (err, s1)) :
    s1 roomID = some room ∨
    (room.turn = player ∧ ∃ n w, n < room.board.length ∧ room.board[n]? = some ' ' ∧
      s1 roomID = some { room with
        board := placeSymbol room.board n (playerSymbol room player)
        turn := getNextPlayer room player
        status := moveStatus w (placeSymbol room.board n (playerSymbol room player))
        winner := w }) := by
  rcases processMove_cases s roomID player position room h with
    ⟨_, h1⟩ | ⟨_, _, h1⟩ | ⟨_, _, h1⟩ | ⟨hturn, n, _, hn, hcell, h1⟩
  · rw [h1] at hres
    rw [← (Prod.mk.inj (Option.some.inj hres)).2]
    exact Or.inl h
  · rw [h1] at hres
    rw [← (Prod.mk.inj (Option.some.inj hres)).2]
    exact Or.inl h
  · rw [h1] at hres
    rw [← (Prod.mk.inj (Option.some.inj hres)).2]
    exact Or.inl h
  · rcases h1 with ⟨_, h1⟩ | ⟨w, _, h1⟩
    · rw [h1] at hres
      cases hres
    · rw [h1] at hres
      rw [← (Prod.mk.inj (Option.some.inj hres)).2]
      exact Or.inr ⟨hturn, n, w, hn, hcell, storeAfterMove_same s roomID room player n w h⟩

theorem CreateRoom_same (s : Store) (roomID admin : String) :
    (CreateRoom s roomID admin).2 roomID =
      some { user1 := admin, user2 := "", admin := admin, status := "waiting",
             board := [' ', ' ', ' ', ' ', ' ', ' ', ' ', ' ', ' '], turn := admin,
             winner := ((s roomID).getD Room.blank).winner } := by
  simp [CreateRoom, HSet_same]

theorem moveStatus_written (w : String) (board : List Char) : writtenStatus (moveStatus w board) := by
  unfold moveStatus writtenStatus
  split_ifs <;> simp

/-- Every operation keeps an existing room in existence with a status the
code writes, provided the status was one before. -/
theorem applyOp_status (roomID : String) (s : Store) (op : RoomOp)
    (h : ∃ room, s roomID = some room ∧ writtenStatus room.status) :
    ∃ room, applyOp s op roomID = some room ∧ writtenStatus room.status := by
  obtain ⟨room, hroom, hst⟩ := h
  cases op with
  | join r user =>
    by_cases hr : roomID = r
    · subst hr
      rcases JoinRoom_effect s roomID user room hroom with h1 | ⟨_, _, h1⟩ | ⟨_, _, h1⟩
      · exact ⟨room, h1, hst⟩
      · exact ⟨_, h1, hst⟩
      · exact ⟨_, h1, Or.inl rfl⟩
    · exact ⟨room, (JoinRoom_other s r user roomID hr).trans hroom, hst⟩
  | remove r =>
    by_cases hr : roomID = r
    · subst hr
      exact ⟨_, RemoveUser_effect s roomID room hroom, hst⟩
    · exact ⟨room, (RemoveUser_other s r roomID hr).trans hroom, hst⟩
  | start r =>
    by_cases hr : roomID = r
    · subst hr
      rcases StartGame_effect s roomID room hroom with h1 | ⟨_, h1⟩
      · exact ⟨room, h1, hst⟩
      · exact ⟨_, h1, Or.inr (Or.inl rfl)⟩
    · exact ⟨room, (StartGame_other s r roomID hr).trans hroom, hst⟩
  | move r player position =>
    cases hres : processMove s r player position with
    | none =>
      have hop : applyOp s (.move r player position) = s := by simp only [applyOp, hres]
      rw [hop]
      exact ⟨room, hroom, hst⟩
    | some res =>
      obtain ⟨err, s1⟩ := res
      have hop : applyOp s (.move r player position) = s1 := by simp only [applyOp, hres]
      rw [hop]
      by_cases hr : roomID = r
      · subst hr
        rcases processMove_effect s roomID player position room err s1 hroom hres with
          h1 | ⟨_, n, w, _, _, h1⟩
        · exact ⟨room, h1, hst⟩
        · exact ⟨_, h1, moveStatus_written _ _⟩
      · exact ⟨room, (processMove_other s r player position err s1 roomID hr hres).trans hroom,
          hst⟩

theorem applyOps_status (roomID : String) (ops : List RoomOp) (s : Store)
    (h : ∃ room, s roomID = some room ∧ writtenStatus room.status) :
    ∃ room, applyOps s ops roomID = some room ∧ writtenStatus room.status := by
  induction ops generalizing s with
  | nil => exact h
  | cons op rest ih => exact ih (applyOp s op) (applyOp_status roomID s op h)

/-! ## The turn invariant along server runs -/

theorem turnInv_of_phase (roomID : String) (σ : Server) (cl : Clients) (c : Conn) (ph : Phase)
    (h : turnInv roomID σ)
    (hph : ∀ room, σ.store roomID = some room → servesRoom roomID ph → room.user2 ≠ "") :
    turnInv roomID { store := σ.store, clients := cl, phase := Function.update σ.phase c ph } := by
  obtain ⟨room, hroom, h1, h2, h3⟩ := h
  refine ⟨room, hroom, h1, h2, ?_⟩
  intro c1 hc1
  by_cases hc : c1 = c
  · subst hc
    simp only [Function.update_same] at hc1
    exact hph room hroom hc1
  · simp only [Function.update_noteq hc] at hc1
    exact h3 c1 hc1

theorem turnInv_of_store (roomID : String) (σ : Server) (s1 : Store)
    (h : turnInv roomID σ)
    (hstore : ∀ room, σ.store roomID = some room →
      (room.turn = room.user1 ∨ (room.turn = room.user2 ∧ room.user2 ≠ "")) →
      (room.status = "started" → room.user2 ≠ "") →
      ∃ room1, s1 roomID = some room1 ∧
        (room1.turn = room1.user1 ∨ (room1.turn = room1.user2 ∧ room1.user2 ≠ "")) ∧
        (room1.status = "started" → room1.user2 ≠ "") ∧
        (room.user2 ≠ "" → room1.user2 ≠ "")) :
    turnInv roomID { store := s1, clients := σ.clients, phase := σ.phase } := by
  obtain ⟨room, hroom, h1, h2, h3⟩ := h
  obtain ⟨room1, hroom1, g1, g2, g3⟩ := hstore room hroom h1 h2
  exact ⟨room1, hroom1, g1, g2, fun c hc => g3 (h3 c hc)⟩

theorem not_servesRoom_refused (roomID msg : String) : ¬ servesRoom roomID (.refused msg) := by
  rintro (h | h | h) <;> cases h

theorem not_servesRoom_closed (roomID : String) : ¬ servesRoom roomID .closed := by
  rintro (h | h | h) <;> cases h

theorem servesRoom_eq (roomID r : String) (ph : Phase)
    (hph : ph = .statusOk r ∨ ph = .admitted r ∨ ph = .registered r)
    (h : servesRoom roomID ph) : r = roomID := by
  rcases hph with rfl | rfl | rfl <;> rcases h with h | h | h <;> cases h <;> rfl

/-- Every step other than `RemoveUser` preserves the turn invariant. -/
theorem step_turnInv (roomID : String) (σ : Server) (e : Event)
    (he : e.isRemoveUser = false) (h : turnInv roomID σ) : turnInv roomID (step σ e) := by
  cases e with
  | statusCheck r c =>
    cases hph : σ.phase c with
    | idle =>
      by_cases hr : r = ""
      · have hs : step σ (.statusCheck r c) =
            { store := σ.store, clients := σ.clients,
              phase := Function.update σ.phase c (.refused "room_id is required") } := by
          simp [step, hph, hr]
        rw [hs]
        exact turnInv_of_phase roomID σ _ c _ h
          (fun _ _ hs => absurd hs (not_servesRoom_refused _ _))
      · cases hroom : σ.store r with
        | none =>
          have hs : step σ (.statusCheck r c) =
              { store := σ.store, clients := σ.clients,
                phase := Function.update σ.phase c (.refused "Room not found") } := by
            simp [step, hph, hr, GetRoomInfo, hroom]
          rw [hs]
          exact turnInv_of_phase roomID σ _ c _ h
            (fun _ _ hs => absurd hs (not_servesRoom_refused _ _))
        | some roomInfo =>
          by_cases hst : roomInfo.status = "started"
          · have hs : step σ (.statusCheck r c) =
                { store := σ.store, clients := σ.clients,
                  phase := Function.update σ.phase c (.statusOk r) } := by
              simp [step, hph, hr, GetRoomInfo, hroom, hst]
            rw [hs]
            refine turnInv_of_phase roomID σ _ c _ h ?_
            intro room hrm hsv
            have hrr : r = roomID := servesRoom_eq roomID r _ (Or.inl rfl) hsv
            subst hrr
            obtain ⟨room2, hroom2, _, h2, _⟩ := h
            rw [hroom] at hroom2 hrm
            cases hroom2
            cases hrm
            exact h2 hst
          · have hs : step σ (.statusCheck r c) =
                { store := σ.store, clients := σ.clients,
                  phase := Function.update σ.phase c (.refused "Room is not started") } := by
              simp [step, hph, hr, GetRoomInfo, hroom, hst]
            rw [hs]
            exact turnInv_of_phase roomID σ _ c _ h
              (fun _ _ hs => absurd hs (not_servesRoom_refused _ _))
    | statusOk r1 => simpa [step, hph] using h
    | admitted r1 => simpa [step, hph] using h
    | registered r1 => simpa [step, hph] using h
    | refused msg => simpa [step, hph] using h
    | closed => simpa [step, hph] using h
  | capacityCheck c =>
    cases hph : σ.phase c with
    | statusOk r =>
      have hold : ∀ room, σ.store roomID = some room → servesRoom roomID (.admitted r) →
          room.user2 ≠ "" := by
        intro room hrm hsv
        have hrr : r = roomID := servesRoom_eq roomID r _ (Or.inr (Or.inl rfl)) hsv
        subst hrr
        obtain ⟨room2, hroom2, _, _, h3⟩ := h
        rw [hrm] at hroom2
        cases hroom2
        exact h3 c (Or.inl hph)
      by_cases hfull : (connectionsOf σ.clients r).length ≥ 2
      · have hs : step σ (.capacityCheck c) =
            { store := σ.store, clients := σ.clients,
              phase := Function.update σ.phase c (.refused "Room is full") } := by
          simp [step, hph, hfull]
        rw [hs]
        exact turnInv_of_phase roomID σ _ c _ h
          (fun _ _ hs => absurd hs (not_servesRoom_refused _ _))
      · have hs : step σ (.capacityCheck c) =
            { store := σ.store, clients := σ.clients,
              phase := Function.update σ.phase c (.admitted r) } := by
          simp only [step, hph, if_neg hfull]
        rw [hs]
        exact turnInv_of_phase roomID σ _ c _ h hold
    | idle => simpa [step, hph] using h
    | admitted r1 => simpa [step, hph] using h
    | registered r1 => simpa [step, hph] using h
    | refused msg => simpa [step, hph] using h
    | closed => simpa [step, hph] using h
  | upgradeFailed c =>
    cases hph : σ.phase c with
    | admitted r =>
      have hs : step σ (.upgradeFailed c) =
          { store := σ.store, clients := σ.clients,
            phase := Function.update σ.phase c .closed } := by
        simp [step, hph]
      rw [hs]
      exact turnInv_of_phase roomID σ _ c _ h
        (fun _ _ hs => absurd hs (not_servesRoom_closed _))
    | idle => simpa [step, hph] using h
    | statusOk r1 => simpa [step, hph] using h
    | registered r1 => simpa [step, hph] using h
    | refused msg => simpa [step, hph] using h
    | closed => simpa [step, hph] using h
  | register c =>
    cases hph : σ.phase c with
    | admitted r =>
      have hs : step σ (.register c) =
          { store := σ.store, clients := appendConn σ.clients r c,
            phase := Function.update σ.phase c (.registered r) } := by
        simp [step, hph]
      rw [hs]
      refine turnInv_of_phase roomID σ _ c _ h ?_
      intro room hrm hsv
      have hrr : r = roomID := servesRoom_eq roomID r _ (Or.inr (Or.inr rfl)) hsv
      subst hrr
      obtain ⟨room2, hroom2, _, _, h3⟩ := h
      rw [hrm] at hroom2
      cases hroom2
      exact h3 c (Or.inr (Or.inl hph))
    | idle => simpa [step, hph] using h
    | statusOk r1 => simpa [step, hph] using h
    | registered r1 => simpa [step, hph] using h
    | refused msg => simpa [step, hph] using h
    | closed => simpa [step, hph] using h
  | makeMove c player position =>
    cases hph : σ.phase c with
    | registered r =>
      cases hres : processMove σ.store r player position with
      | none => simpa [step, hph, hres] using h
      | some res =>
        obtain ⟨err, s1⟩ := res
        have hs : step σ (.makeMove c player position) =
            { store := s1, clients := σ.clients, phase := σ.phase } := by
          simp [step, hph, hres]
        rw [hs]
        have hsrv := h
        obtain ⟨room0, hroom0, _, _, h3⟩ := hsrv
        refine turnInv_of_store roomID σ s1 h ?_
        intro room hrm g1 g2
        by_cases hr : roomID = r
        · subst hr
          have hu2 : room.user2 ≠ "" := by
            rw [hrm] at hroom0
            cases hroom0
            exact h3 c (Or.inr (Or.inr hph))
          rcases processMove_effect σ.store roomID player position room err s1 hrm hres with
            h1 | ⟨_, n, w, _, _, h1⟩
          · exact ⟨room, h1, g1, g2, fun x => x⟩
          · refine ⟨_, h1, ?_, fun _ => hu2, fun _ => hu2⟩
            show getNextPlayer room player = room.user1 ∨
              (getNextPlayer room player = room.user2 ∧ room.user2 ≠ "")
            unfold getNextPlayer
            by_cases hp : player = room.user1
            · rw [if_pos hp]
              exact Or.inr ⟨rfl, hu2⟩
            · rw [if_neg hp]
              exact Or.inl rfl
        · exact ⟨room,
            (processMove_other σ.store r player position err s1 roomID hr hres).trans hrm,
            g1, g2, fun x => x⟩
    | idle => simpa [step, hph] using h
    | statusOk r1 => simpa [step, hph] using h
    | admitted r1 => simpa [step, hph] using h
    | refused msg => simpa [step, hph] using h
    | closed => simpa [step, hph] using h
  | broadcast r sendFails => exact h
  | disconnect c =>
    cases hph : σ.phase c with
    | registered r =>
      have hs : step σ (.disconnect c) =
          { store := σ.store, clients := disconnectRoom σ.clients r c,
            phase := Function.update σ.phase c .closed } := by
        simp [step, hph]
      rw [hs]
      exact turnInv_of_phase roomID σ _ c _ h
        (fun _ _ hs => absurd hs (not_servesRoom_closed _))
    | idle => simpa [step, hph] using h
    | statusOk r1 => simpa [step, hph] using h
    | admitted r1 => simpa [step, hph] using h
    | refused msg => simpa [step, hph] using h
    | closed => simpa [step, hph] using h
  | joinRoom r user =>
    refine turnInv_of_store roomID σ _ h ?_
    intro room hrm g1 g2
    by_cases hr : roomID = r
    · subst hr
      rcases JoinRoom_effect σ.store roomID user room hrm with h1 | ⟨hu, hst, h1⟩ | ⟨hu, hst, _⟩
      · exact ⟨room, h1, g1, g2, fun x => x⟩
      · refine ⟨_, h1, ?_, fun hs => absurd hs hst, fun hx => absurd hu hx⟩
        rcases g1 with g | ⟨_, g⟩
        · exact Or.inl g
        · exact absurd hu g
      · exact absurd hu (g2 hst)
    · exact ⟨room, (JoinRoom_other σ.store r user roomID hr).trans hrm, g1, g2, fun x => x⟩
  | removeUser r => cases he
  | startGame r =>
    refine turnInv_of_store roomID σ _ h ?_
    intro room hrm g1 g2
    by_cases hr : roomID = r
    · subst hr
      rcases StartGame_effect σ.store roomID room hrm with h1 | ⟨hu, h1⟩
      · exact ⟨room, h1, g1, g2, fun x => x⟩
      · exact ⟨_, h1, g1, fun _ => hu, fun _ => hu⟩
    · exact ⟨room, (StartGame_other σ.store r roomID hr).trans hrm, g1, g2, fun x => x⟩

theorem run_turnInv (roomID : String) (events : List Event) (σ : Server)
    (hno : ∀ e ∈ events, e.isRemoveUser = false) (h : turnInv roomID σ) :
    turnInv roomID (run σ events) := by
  induction events generalizing σ with
  | nil => exact h
  | cons e rest ih =>
    exact ih (step σ e) (fun x hx => hno x (List.mem_cons_of_mem _ hx))
      (step_turnInv roomID σ e (hno e (List.mem_cons_self _ _)) h)

theorem serverAfterCreate_turnInv (s0 : Store) (roomID admin : String) :
    turnInv roomID (serverAfterCreate s0 roomID admin) := by
  refine ⟨_, CreateRoom_same s0 roomID admin, Or.inl rfl, ?_, ?_⟩
  · intro hst
    have hne : ("waiting" : String) ≠ "started" := by decide
    exact absurd hst hne
  · intro c hc
    rcases hc with hc | hc | hc <;> cases hc

/-! ## The board invariant along operation sequences -/

theorem playerSymbol_valid (room : Room) (player : String) :
    validCell (playerSymbol room player) := by
  unfold playerSymbol validCell
  split_ifs <;> simp

theorem placeSymbol_valid (board : List Char) (n : Nat) (sym : Char) (hn : n < board.length)
    (hsym : validCell sym) (hb : ∀ c ∈ board, validCell c) :
    ∀ c ∈ placeSymbol board n sym, validCell c := by
  intro c hc
  rw [placeSymbol_eq_set board n sym hn] at hc
  rcases List.mem_or_eq_of_mem_set hc with h | h
  · exact hb c h
  · rw [h]
    exact hsym

/-- Every operation preserves the board invariant of a room. -/
theorem applyOp_boardInv (roomID : String) (s : Store) (op : RoomOp) (h : boardInv roomID s) :
    boardInv roomID (applyOp s op) := by
  obtain ⟨room, hroom, hlen, hcells⟩ := h
  cases op with
  | join r user =>
    by_cases hr : roomID = r
    · subst hr
      rcases JoinRoom_effect s roomID user room hroom with h1 | ⟨_, _, h1⟩ | ⟨_, _, h1⟩
      · exact ⟨room, h1, hlen, hcells⟩
      · exact ⟨_, h1, hlen, hcells⟩
      · exact ⟨_, h1, hlen, hcells⟩
    · exact ⟨room, (JoinRoom_other s r user roomID hr).trans hroom, hlen, hcells⟩
  | remove r =>
    by_cases hr : roomID = r
    · subst hr
      exact ⟨_, RemoveUser_effect s roomID room hroom, hlen, hcells⟩
    · exact ⟨room, (RemoveUser_other s r roomID hr).trans hroom, hlen, hcells⟩
  | start r =>
    by_cases hr : roomID = r
    · subst hr
      rcases StartGame_effect s roomID room hroom with h1 | ⟨_, h1⟩
      · exact ⟨room, h1, hlen, hcells⟩
      · exact ⟨_, h1, hlen, hcells⟩
    · exact ⟨room, (StartGame_other s r roomID hr).trans hroom, hlen, hcells⟩
  | move r player position =>
    cases hres : processMove s r player position with
    | none =>
      have hop : applyOp s (.move r player position) = s := by simp only [applyOp, hres]
      rw [hop]
      exact ⟨room, hroom, hlen, hcells⟩
    | some res =>
      obtain ⟨err, s1⟩ := res
      have hop : applyOp s (.move r player position) = s1 := by simp only [applyOp, hres]
      rw [hop]
      by_cases hr : roomID = r
      · subst hr
        rcases processMove_effect s roomID player position room err s1 hroom hres with
          h1 | ⟨_, n, w, hn, _, h1⟩
        · exact ⟨room, h1, hlen, hcells⟩
        · exact ⟨_, h1, (placeSymbol_length room.board n _ hn).trans hlen,
            placeSymbol_valid room.board n _ hn (playerSymbol_valid room player) hcells⟩
      · exact ⟨room, (processMove_other s r player position err s1 roomID hr hres).trans hroom,
          hlen, hcells⟩

theorem applyOps_boardInv (roomID : String) (ops : List RoomOp) (s : Store)
    (h : boardInv roomID s) : boardInv roomID (applyOps s ops) := by
  induction ops generalizing s with
  | nil => exact h
  | cons op rest ih => exact ih (applyOp s op) (applyOp_boardInv roomID s op h)

theorem CreateRoom_boardInv (s0 : Store) (roomID admin : String) :
    boardInv roomID (CreateRoom s0 roomID admin).2 := by
  refine ⟨_, CreateRoom_same s0 roomID admin, rfl, ?_⟩
  intro c hc
  have hsp : c = ' ' := by simpa using hc
  exact Or.inl hsp

/-- On a room with a 9-cell board `processMove` never panics. -/
theorem processMove_no_panic (s : Store) (roomID player position : String) (room : Room)
    (hroom : s roomID = some room) (hlen : room.board.length = 9) :
    processMove s roomID player position ≠ none := by
  rcases processMove_cases s roomID player position room hroom with
    ⟨_, h1⟩ | ⟨_, _, h1⟩ | ⟨_, _, h1⟩ | ⟨_, n, _, hn, _, h1⟩
  · rw [h1]; simp
  · rw [h1]; simp
  · rw [h1]; simp
  · obtain ⟨w, hw⟩ := checkWinner_placeSymbol_total room.board n (playerSymbol room player) hlen hn
    rcases h1 with ⟨hnone, _⟩ | ⟨w2, _, h1⟩
    · rw [hw] at hnone
      cases hnone
    · rw [h1]; simp

/-! ## Lines before and after a move -/

theorem placeSymbol_get (board : List Char) (n : Nat) (sym : Char) (i : Nat)
    (hn : n < board.length) :
    (placeSymbol board n sym)[i]? = if n = i then some sym else board[i]? := by
  rw [placeSymbol_eq_set board n sym hn, List.getElem?_set]
  by_cases h : n = i
  · rw [if_pos h, if_pos h, if_pos hn]
  · rw [if_neg h, if_neg h]

/-- A line that becomes uniform by a move on an empty cell holds the symbol
just placed. -/
theorem lineUniform_after_move (board : List Char) (n : Nat) (sym : Char)
    (p : Nat × Nat × Nat) (hn : n < board.length) (hno : ¬ lineUniform board p)
    (hu : lineUniform (placeSymbol board n sym) p) :
    (placeSymbol board n sym)[p.1]? = some sym := by
  obtain ⟨c, hc, e1, e2, e3⟩ := hu
  have g1 := e1
  have g2 := e2
  have g3 := e3
  rw [placeSymbol_get board n sym _ hn] at g1 g2 g3
  by_cases h1 : n = p.1
  · rw [if_pos h1] at g1
    rw [e1, ← g1]
  · by_cases h2 : n = p.2.1
    · rw [if_pos h2] at g2
      rw [e1, ← g2]
    · by_cases h3 : n = p.2.2
      · rw [if_pos h3] at g3
        rw [e1, ← g3]
      · rw [if_neg h1] at g1
        rw [if_neg h2] at g2
        rw [if_neg h3] at g3
        exact absurd ⟨c, hc, g1, g2, g3⟩ hno

/-- A uniform line stays uniform when a move fills an empty cell. -/
theorem lineUniform_kept (board : List Char) (n : Nat) (sym : Char) (p : Nat × Nat × Nat)
    (hn : n < board.length) (hcell : board[n]? = some ' ') (hu : lineUniform board p) :
    lineUniform (placeSymbol board n sym) p := by
  obtain ⟨c, hc, e1, e2, e3⟩ := hu
  have hne : ∀ i, board[i]? = some c → n ≠ i := by
    intro i hi hni
    rw [hni, hi] at hcell
    exact hc (Option.some.inj hcell)
  refine ⟨c, hc, ?_, ?_, ?_⟩
  · rw [placeSymbol_get board n sym _ hn, if_neg (hne _ e1)]
    exact e1
  · rw [placeSymbol_get board n sym _ hn, if_neg (hne _ e2)]
    exact e2
  · rw [placeSymbol_get board n sym _ hn, if_neg (hne _ e3)]
    exact e3

theorem noLine_iff (board : List Char) :
    noLine board = true ↔ ∀ p ∈ specLines, ¬ lineUniform board p := by
  simp [noLine]

theorem sameSymbolLines_after_move (board : List Char) (n : Nat) (sym : Char)
    (hn : n < board.length) (hno : ∀ p ∈ specLines, ¬ lineUniform board p) :
    sameSymbolLines (placeSymbol board n sym) := by
  intro p hp q hq hup huq
  rw [lineUniform_after_move board n sym p hn (hno p hp) hup,
    lineUniform_after_move board n sym q hn (hno q hq) huq]

/-- An allowed operation preserves the line invariant. -/
theorem applyOp_lineInv (roomID : String) (s : Store) (op : RoomOp)
    (hallow : moveAllowed roomID s op = true) (h : lineInv roomID s) :
    lineInv roomID (applyOp s op) := by
  obtain ⟨room, hroom, hlen, hsame⟩ := h
  cases op with
  | join r user =>
    by_cases hr : roomID = r
    · subst hr
      rcases JoinRoom_effect s roomID user room hroom with h1 | ⟨_, _, h1⟩ | ⟨_, _, h1⟩
      · exact ⟨room, h1, hlen, hsame⟩
      · exact ⟨_, h1, hlen, hsame⟩
      · exact ⟨_, h1, hlen, hsame⟩
    · exact ⟨room, (JoinRoom_other s r user roomID hr).trans hroom, hlen, hsame⟩
  | remove r =>
    by_cases hr : roomID = r
    · subst hr
      exact ⟨_, RemoveUser_effect s roomID room hroom, hlen, hsame⟩
    · exact ⟨room, (RemoveUser_other s r roomID hr).trans hroom, hlen, hsame⟩
  | start r =>
    by_cases hr : roomID = r
    · subst hr
      rcases StartGame_effect s roomID room hroom with h1 | ⟨_, h1⟩
      · exact ⟨room, h1, hlen, hsame⟩
      · exact ⟨_, h1, hlen, hsame⟩
    · exact ⟨room, (StartGame_other s r roomID hr).trans hroom, hlen, hsame⟩
  | move r player position =>
    cases hres : processMove s r player position with
    | none =>
      have hop : applyOp s (.move r player position) = s := by simp only [applyOp, hres]
      rw [hop]
      exact ⟨room, hroom, hlen, hsame⟩
    | some res =>
      obtain ⟨err, s1⟩ := res
      have hop : applyOp s (.move r player position) = s1 := by simp only [applyOp, hres]
      rw [hop]
      by_cases hr : roomID = r
      · subst hr
        have hno : ∀ p ∈ specLines, ¬ lineUniform room.board p := by
          have h2 := hallow
          simp only [moveAllowed, if_true, hroom] at h2
          exact (noLine_iff room.board).mp h2
        rcases processMove_effect s roomID player position room err s1 hroom hres with
          h1 | ⟨_, n, w, hn, _, h1⟩
        · exact ⟨room, h1, hlen, hsame⟩
        · exact ⟨_, h1, (placeSymbol_length room.board n _ hn).trans hlen,
            sameSymbolLines_after_move room.board n _ hn hno⟩
      · exact ⟨room, (processMove_other s r player position err s1 roomID hr hres).trans hroom,
          hlen, hsame⟩

theorem applyOps_lineInv (roomID : String) (ops : List RoomOp) (s : Store)
    (hplay : movesBeforeWin roomID s ops = true) (h : lineInv roomID s) :
    lineInv roomID (applyOps s ops) := by
  induction ops generalizing s with
  | nil => exact h
  | cons op rest ih =>
    simp only [movesBeforeWin, Bool.and_eq_true] at hplay
    exact ih (applyOp s op) hplay.2 (applyOp_lineInv roomID s op hplay.1 h)

theorem CreateRoom_lineInv (s0 : Store) (roomID admin : String) :
    lineInv roomID (CreateRoom s0 roomID admin).2 := by
  refine ⟨_, CreateRoom_same s0 roomID admin, rfl, ?_⟩
  intro p hp q hq hup
  have hno : noLine [' ', ' ', ' ', ' ', ' ', ' ', ' ', ' ', ' '] = true := by decide
  exact absurd hup ((noLine_iff _).mp hno p hp)

/-- When all uniform lines hold one symbol, every order of scanning the eight
patterns gives the result of `checkWinner`. -/
theorem checkWinnerLoop_perm (board : List Char) (hlen : board.length = 9)
    (hsame : sameSymbolLines board) (ps : List (Nat × Nat × Nat))
    (hperm : ps.Perm winPatterns) : checkWinnerLoop board ps = checkWinner board := by
  have hbw := winPatterns_inBounds board hlen
  have hbp : ∀ q ∈ ps, patternInBounds board q := fun q hq => hbw q (hperm.mem_iff.mp hq)
  by_cases hex : ∃ p ∈ winPatterns, lineUniform board p
  · obtain ⟨p0, hp0, hu0⟩ := hex
    obtain ⟨pre1, p1, post1, he1, hu1, hpre1⟩ :=
      exists_first_uniform board ps ⟨p0, hperm.mem_iff.mpr hp0, hu0⟩
    obtain ⟨pre2, p2, post2, he2, hu2, hpre2⟩ :=
      exists_first_uniform board winPatterns ⟨p0, hp0, hu0⟩
    have hm1 : p1 ∈ winPatterns := hperm.mem_iff.mp (by rw [he1]; simp)
    have hm2 : p2 ∈ winPatterns := by rw [he2]; simp
    unfold checkWinner
    rw [he1] at hbp
    rw [he2] at hbw
    rw [he1, checkWinnerLoop_first board pre1 p1 post1 hbp hu1 hpre1]
    rw [he2, checkWinnerLoop_first board pre2 p2 post2 hbw hu2 hpre2]
    rw [hsame p1 hm1 p2 hm2 hu1 hu2]
  · have hn1 : ∀ q ∈ ps, ¬ lineUniform board q :=
      fun q hq hu => hex ⟨q, hperm.mem_iff.mp hq, hu⟩
    have hn2 : ∀ q ∈ winPatterns, ¬ lineUniform board q := fun q hq hu => hex ⟨q, hq, hu⟩
    unfold checkWinner
    rw [checkWinnerLoop_none board ps hbp hn1, checkWinnerLoop_none board winPatterns hbw hn2]

/-! ## Registry entries -/

theorem appendConn_noEmptyEntry (cl : Clients) (roomID : String) (conn : Conn)
    (h : noEmptyEntry cl) : noEmptyEntry (appendConn cl roomID conn) := by
  intro k conns hk
  unfold appendConn at hk
  by_cases hkr : k = roomID
  · rw [if_pos hkr] at hk
    rw [← Option.some.inj hk]
    simp
  · rw [if_neg hkr] at hk
    exact h k conns hk

theorem disconnectRoom_noEmptyEntry (cl : Clients) (roomID : String) (conn : Conn)
    (h : noEmptyEntry cl) : noEmptyEntry (disconnectRoom cl roomID conn) := by
  intro k conns hk
  unfold disconnectRoom at hk
  cases hroom : cl roomID with
  | none =>
    rw [hroom] at hk
    exact h k conns hk
  | some connections =>
    rw [hroom] at hk
    simp only at hk
    by_cases hlen : (connections.filter (fun c => c ≠ conn)).length = 0
    · rw [if_pos hlen] at hk
      by_cases hkr : k = roomID
      · simp [hkr] at hk
      · simp only [if_neg hkr] at hk
        exact h k conns hk
    · rw [if_neg hlen] at hk
      by_cases hkr : k = roomID
      · simp only [if_pos hkr] at hk
        rw [← Option.some.inj hk]
        intro hnil
        rw [hnil] at hlen
        exact hlen rfl
      · simp only [if_neg hkr] at hk
        exact h k conns hk

/-! ## A finished game under later moves -/

theorem moveStatus_finished_iff (w : String) (board : List Char) :
    moveStatus w board = "finished" ↔ w ≠ "" := by
  unfold moveStatus
  by_cases hw : w ≠ ""
  · simp [hw]
  · rw [if_neg hw]
    constructor
    · intro h
      split_ifs at h <;> simp at h
    · intro h
      exact absurd h hw

/-- A make_move processed on a finished game keeps the game finished. -/
theorem processMove_finishedInv (roomID : String) (s : Store) (r player position : String)
    (err : Option String) (s1 : Store)
    (hres : processMove s r player position = some (err, s1)) (h : finishedInv roomID s) :
    finishedInv roomID s1 := by
  obtain ⟨room, hroom, hst, hwin, hcw, p, hp, hu⟩ := h
  by_cases hr : roomID = r
  · subst hr
    rcases processMove_cases s roomID player position room hroom with
      ⟨_, h1⟩ | ⟨_, _, h1⟩ | ⟨_, _, h1⟩ | ⟨_, n, _, hn, hcell, h1⟩
    · rw [h1] at hres
      rw [← (Prod.mk.inj (Option.some.inj hres)).2]
      exact ⟨room, hroom, hst, hwin, hcw, p, hp, hu⟩
    · rw [h1] at hres
      rw [← (Prod.mk.inj (Option.some.inj hres)).2]
      exact ⟨room, hroom, hst, hwin, hcw, p, hp, hu⟩
    · rw [h1] at hres
      rw [← (Prod.mk.inj (Option.some.inj hres)).2]
      exact ⟨room, hroom, hst, hwin, hcw, p, hp, hu⟩
    · rcases h1 with ⟨_, h1⟩ | ⟨w, hw, h1⟩
      · rw [h1] at hres
        cases hres
      · rw [h1] at hres
        rw [← (Prod.mk.inj (Option.some.inj hres)).2]
        have hu1 := lineUniform_kept room.board n (playerSymbol room player) p hn hcell hu
        have hw0 : w ≠ "" := (checkWinnerLoop_sound _ winPatterns w hw).mpr ⟨p, hp, hu1⟩
        exact ⟨_, storeAfterMove_same s roomID room player n w hroom,
          (moveStatus_finished_iff w _).mpr hw0, hw0, hw, p, hp, hu1⟩
  · exact ⟨room, (processMove_other s r player position err s1 roomID hr hres).trans hroom,
      hst, hwin, hcw, p, hp, hu⟩

theorem applyOps_finishedInv (roomID : String) (ops : List RoomOp) (s : Store)
    (hmoves : ∀ op ∈ ops, op.isMove = true) (h : finishedInv roomID s) :
    finishedInv roomID (applyOps s ops) := by
  induction ops generalizing s with
  | nil => exact h
  | cons op rest ih =>
    refine ih (applyOp s op) (fun x hx => hmoves x (List.mem_cons_of_mem _ hx)) ?_
    have hop := hmoves op (List.mem_cons_self _ _)
    cases op with
    | join r user => cases hop
    | remove r => cases hop
    | start r => cases hop
    | move r player position =>
      cases hres : processMove s r player position with
      | none =>
        have he : applyOp s (.move r player position) = s := by simp only [applyOp, hres]
        rw [he]
        exact h
      | some res =>
        obtain ⟨err, s1⟩ := res
        have he : applyOp s (.move r player position) = s1 := by simp only [applyOp, hres]
        rw [he]
        exact processMove_finishedInv roomID s r player position err s1 hres h

/-! ## Decimal numerals and `Atoi` -/

theorem cellDigits_lt (n : Nat) (d : Char) (h : cellDigits[n]? = some d) : n < 9 := by
  have h2 := (List.getElem?_eq_some_iff.mp h).1
  simpa [cellDigits] using h2

theorem digitValue_cellDigit (n : Nat) (d : Char) (h : cellDigits[n]? = some d) :
    digitValue d = some n := by
  have hn := cellDigits_lt n d h
  interval_cases n <;> simp [cellDigits] at h <;> subst h <;> decide

theorem digitValue_toNat (c : Char) (m : Nat) (h : digitValue c = some m) :
    c.toNat = 48 + m ∧ m ≤ 9 := by
  unfold digitValue at h
  by_cases hc : '0' ≤ c ∧ c ≤ '9'
  · rw [if_pos hc] at h
    have h1 : (48 : Nat) ≤ c.toNat := by
      have := Char.le_def.mp hc.1
      exact this
    have h2 : c.toNat ≤ 57 := by
      have := Char.le_def.mp hc.2
      exact this
    have h3 := Option.some.inj h
    have h4 : '0'.toNat = 48 := by decide
    rw [h4] at h3
    omega
  · rw [if_neg hc] at h
    cases h

theorem cellDigit_of_digitValue (c : Char) (m : Nat) (h : digitValue c = some m) (hm : m ≤ 8) :
    cellDigits[m]? = some c := by
  have h1 := (digitValue_toNat c m h).1
  have h2 : c = Char.ofNat (48 + m) := by rw [← h1, Char.ofNat_toNat]
  rw [h2]
  interval_cases m <;> rfl

theorem parseDigits_zeros (zeros rest : List Char) (hz : ∀ c ∈ zeros, c = '0') :
    parseDigits (zeros ++ rest) 0 = parseDigits rest 0 := by
  induction zeros with
  | nil => rfl
  | cons z zs ih =>
    have hz0 : z = '0' := hz z (List.mem_cons_self _ _)
    subst hz0
    have hd : digitValue '0' = some 0 := by decide
    simp only [List.cons_append, parseDigits, hd]
    exact ih (fun c hc => hz c (List.mem_cons_of_mem _ hc))

theorem parseDigits_ge (l : List Char) (acc m : Nat) (h : parseDigits l acc = some m) :
    acc ≤ m ∧ (l ≠ [] → acc * 10 ≤ m) := by
  induction l generalizing acc with
  | nil =>
    simp only [parseDigits] at h
    have := Option.some.inj h
    exact ⟨by omega, fun hne => absurd rfl hne⟩
  | cons c rest ih =>
    simp only [parseDigits] at h
    cases hd : digitValue c with
    | none => rw [hd] at h; cases h
    | some d =>
      rw [hd] at h
      have := (ih (acc * 10 + d) h).1
      exact ⟨by omega, fun _ => by omega⟩

theorem parseDigits_small (l : List Char) (m : Nat) (h : parseDigits l 0 = some m)
    (hne : l ≠ []) (hm : m ≤ 8) :
    ∃ zeros d, l = zeros ++ [d] ∧ (∀ c ∈ zeros, c = '0') ∧ cellDigits[m]? = some d := by
  induction l with
  | nil => exact absurd rfl hne
  | cons c rest ih =>
    simp only [parseDigits] at h
    cases hd : digitValue c with
    | none => rw [hd] at h; cases h
    | some d =>
      rw [hd] at h
      simp only [Nat.zero_mul, Nat.zero_add] at h
      by_cases hrest : rest = []
      · subst hrest
        simp only [parseDigits] at h
        have hdm : d = m := Option.some.inj h
        subst hdm
        exact ⟨[], c, rfl, by simp, cellDigit_of_digitValue c d hd hm⟩
      · have hge := (parseDigits_ge rest d m h).2 hrest
        have hd0 : d = 0 := by omega
        subst hd0
        have hc0 : c = '0' := by
          have := cellDigit_of_digitValue c 0 hd (by omega)
          simpa [cellDigits] using this.symm
        obtain ⟨zeros, d1, hl, hz, hdig⟩ := ih h hrest
        refine ⟨c :: zeros, d1, by rw [hl]; rfl, ?_, hdig⟩
        intro x hx
        rcases List.mem_cons.mp hx with rfl | hx
        · exact hc0
        · exact hz x hx

theorem Atoi_minus (position : String) (c : Char) (rest : List Char)
    (hdata : position.data = '-' :: c :: rest) :
    Atoi position =
      (parseDigits (c :: rest) 0).bind (fun n =>
        if -9223372036854775808 ≤ -(n : Int) ∧ -(n : Int) ≤ 9223372036854775807 then
          some (-(n : Int))
        else none) := by
  unfold Atoi
  rw [hdata]
  cases h : parseDigits (c :: rest) 0 <;> simp [h]

theorem Atoi_plus (position : String) (c : Char) (rest : List Char)
    (hdata : position.data = '+' :: c :: rest) :
    Atoi position =
      (parseDigits (c :: rest) 0).bind (fun n =>
        if -9223372036854775808 ≤ (n : Int) ∧ (n : Int) ≤ 9223372036854775807 then
          some (n : Int)
        else none) := by
  unfold Atoi
  rw [hdata]
  cases h : parseDigits (c :: rest) 0 <;> simp [h]

theorem Atoi_sign_only (position : String) (c : Char) (hdata : position.data = [c])
    (hc : c = '-' ∨ c = '+') : Atoi position = none := by
  unfold Atoi
  rw [hdata]
  rcases hc with rfl | rfl <;> rfl

theorem Atoi_unsigned (position : String) (c : Char) (rest : List Char)
    (hdata : position.data = c :: rest) (h1 : c ≠ '-') (h2 : c ≠ '+') :
    Atoi position =
      (parseDigits (c :: rest) 0).bind (fun n =>
        if -9223372036854775808 ≤ (n : Int) ∧ (n : Int) ≤ 9223372036854775807 then
          some (n : Int)
        else none) := by
  unfold Atoi
  rw [hdata]
  have hneg : ¬ ((c :: rest).head? = some '-') := by
    intro h
    exact h1 (by simpa using h)
  have hdig : (match c :: rest with
      | '-' :: r => r
      | '+' :: r => r
      | other => other) = c :: rest := by
    split
    · next r h => exact absurd (List.cons.inj h).1 h1
    · next r h => exact absurd (List.cons.inj h).1 h2
    · rfl
  simp only [hdig, hneg, if_false]
  cases parseDigits (c :: rest) 0 <;> rfl

theorem Atoi_nil (position : String) (hdata : position.data = []) : Atoi position = none := by
  unfold Atoi
  rw [hdata]



theorem digitValue_not_sign (c : Char) (m : Nat) (h : digitValue c = some m) :
    c ≠ '-' ∧ c ≠ '+' := by
  constructor
  · rintro rfl
    have : digitValue '-' = none := by decide
    rw [this] at h
    cases h
  · rintro rfl
    have : digitValue '+' = none := by decide
    rw [this] at h
    cases h

theorem parseDigits_numeral (zeros : List Char) (d : Char) (n : Nat)
    (hz : ∀ c ∈ zeros, c = '0') (hd : cellDigits[n]? = some d) :
    parseDigits (zeros ++ [d]) 0 = some n := by
  rw [parseDigits_zeros zeros [d] hz]
  simp [parseDigits, digitValue_cellDigit n d hd]

/-- A decimal numeral of a cell index is parsed by `Atoi` to that index. -/
theorem Atoi_of_cellNumeral (position : String) (n : Nat) (h : cellNumeral position n) :
    Atoi position = some (n : Int) := by
  obtain ⟨sign, zeros, d, hdata, hd, hsign, hz⟩ := h
  have hn := cellDigits_lt n d hd
  have hparse := parseDigits_numeral zeros d n hz hd
  obtain ⟨c, rest, hcr⟩ : ∃ c rest, zeros ++ [d] = c :: rest := by
    cases zeros with
    | nil => exact ⟨d, [], rfl⟩
    | cons z zs => exact ⟨z, zs ++ [d], rfl⟩
  rw [List.append_assoc, hcr] at hdata
  rw [hcr] at hparse
  rcases hsign with rfl | rfl | ⟨rfl, hn0⟩
  · have hcd : ∃ m, digitValue c = some m := by
      simp only [parseDigits] at hparse
      cases hdv : digitValue c with
      | none => rw [hdv] at hparse; cases hparse
      | some m => exact ⟨m, rfl⟩
    obtain ⟨m, hm⟩ := hcd
    obtain ⟨h1, h2⟩ := digitValue_not_sign c m hm
    rw [Atoi_unsigned position c rest hdata h1 h2, hparse]
    simp only [Option.bind]
    rw [if_pos (by omega)]
  · rw [Atoi_plus position c rest hdata, hparse]
    simp only [Option.bind]
    rw [if_pos (by omega)]
  · subst hn0
    rw [Atoi_minus position c rest hdata, hparse]
    simp

/-- What `Atoi` parses to a cell index is a decimal numeral of that index. -/
theorem cellNumeral_of_Atoi (position : String) (n : Nat) (hn : n ≤ 8)
    (h : Atoi position = some (n : Int)) : cellNumeral position n := by
  cases hdata : position.data with
  | nil =>
    rw [Atoi_nil position hdata] at h
    cases h
  | cons c rest =>
    by_cases hminus : c = '-'
    · subst hminus
      cases rest with
      | nil =>
        rw [Atoi_sign_only position '-' hdata (Or.inl rfl)] at h
        cases h
      | cons c1 rest1 =>
        rw [Atoi_minus position c1 rest1 hdata] at h
        cases hp : parseDigits (c1 :: rest1) 0 with
        | none => rw [hp] at h; cases h
        | some m =>
          rw [hp] at h
          simp only [Option.bind] at h
          split_ifs at h
          have hv : -(m : Int) = (n : Int) := Option.some.inj h
          have hm0 : m = 0 := by omega
          have hn0 : n = 0 := by omega
          subst hm0
          subst hn0
          obtain ⟨zeros, d, hl, hz, hdig⟩ :=
            parseDigits_small (c1 :: rest1) 0 hp (by simp) (by omega)
          exact ⟨['-'], zeros, d, by rw [hdata, hl]; rfl, hdig, Or.inr (Or.inr ⟨rfl, rfl⟩), hz⟩
    · by_cases hplus : c = '+'
      · subst hplus
        cases rest with
        | nil =>
          rw [Atoi_sign_only position '+' hdata (Or.inr rfl)] at h
          cases h
        | cons c1 rest1 =>
          rw [Atoi_plus position c1 rest1 hdata] at h
          cases hp : parseDigits (c1 :: rest1) 0 with
          | none => rw [hp] at h; cases h
          | some m =>
            rw [hp] at h
            simp only [Option.bind] at h
            split_ifs at h
            have hv : (m : Int) = (n : Int) := Option.some.inj h
            have hmn : m = n := by omega
            subst hmn
            obtain ⟨zeros, d, hl, hz, hdig⟩ :=
              parseDigits_small (c1 :: rest1) m hp (by simp) hn
            exact ⟨['+'], zeros, d, by rw [hdata, hl]; rfl, hdig, Or.inr (Or.inl rfl), hz⟩
      · rw [Atoi_unsigned position c rest hdata hminus hplus] at h
        cases hp : parseDigits (c :: rest) 0 with
        | none => rw [hp] at h; cases h
        | some m =>
          rw [hp] at h
          simp only [Option.bind] at h
          split_ifs at h
          have hv : (m : Int) = (n : Int) := Option.some.inj h
          have hmn : m = n := by omega
          subst hmn
          obtain ⟨zeros, d, hl, hz, hdig⟩ :=
            parseDigits_small (c :: rest) m hp (by simp) hn
          exact ⟨[], zeros, d, by rw [hdata, hl]; rfl, hdig, Or.inl rfl, hz⟩

/-- The decimal numerals of 0..8 are exactly the strings `Atoi` parses to a
cell index. -/
theorem cellNumeral_iff_encodesCell (position : String) (n : Nat) :
    cellNumeral position n ↔ encodesCell position n := by
  constructor
  · intro h
    obtain ⟨_, _, d, _, hd, _, _⟩ := id h
    have := cellDigits_lt n d hd
    exact ⟨by omega, Atoi_of_cellNumeral position n h⟩
  · intro h
    exact cellNumeral_of_Atoi position n h.1 h.2

/-- The order of the rejections of `processMove`, with the position described
by what `Atoi` returns on it. -/
theorem processMove_rejection_cases (s : Store) (roomID player position : String)
    (room : Room) (hroom : s roomID = some room) (hlen : room.board.length = 9) :
    ∃ err s1, processMove s roomID player position = some (err, s1) ∧
      (err = some "it's not your turn" ↔ room.turn ≠ player) ∧
      (err = some "invalid position" ↔
        room.turn = player ∧ ¬ ∃ n, encodesCell position n) ∧
      (err = some "position already occupied" ↔
        room.turn = player ∧ ∃ n, encodesCell position n ∧ room.board[n]? ≠ some ' ') ∧
      (err = none ↔
        room.turn = player ∧ ∃ n, encodesCell position n ∧ room.board[n]? = some ' ') ∧
      (err ≠ none ↔
        room.turn ≠ player ∨ (¬ ∃ n, encodesCell position n) ∨
          ∃ n, encodesCell position n ∧ room.board[n]? ≠ some ' ') := by
  rcases processMove_cases s roomID player position room hroom with
    ⟨hturn, hres⟩ | ⟨hturn, hbad, hres⟩ | ⟨hturn, ⟨n, hpos, hn, hcell⟩, hres⟩ |
    ⟨hturn, n, hpos, hn, hcell, hres⟩
  · refine ⟨_, _, hres, iff_of_true rfl hturn, iff_of_false (by decide) (fun h => hturn h.1),
      iff_of_false (by decide) (fun h => hturn h.1),
      iff_of_false (by simp) (fun h => hturn h.1), iff_of_true (by simp) (Or.inl hturn)⟩
  · have hno : ¬ ∃ n, encodesCell position n := by
      rintro ⟨m, hm8, hm⟩
      rcases hbad with hnone | ⟨v, hv, hrange⟩
      · rw [hnone] at hm
        cases hm
      · rw [hv] at hm
        have hvm : v = (m : Int) := Option.some.inj hm
        rw [hlen] at hrange
        omega
    refine ⟨_, _, hres, iff_of_false (by decide) (fun h => h hturn),
      iff_of_true rfl ⟨hturn, hno⟩,
      iff_of_false (by decide) (fun h => hno ⟨h.2.choose, h.2.choose_spec.1⟩),
      iff_of_false (by simp) (fun h => hno ⟨h.2.choose, h.2.choose_spec.1⟩),
      iff_of_true (by simp) (Or.inr (Or.inl hno))⟩
  · have henc : encodesCell position n := ⟨by omega, hpos⟩
    refine ⟨_, _, hres, iff_of_false (by decide) (fun h => h hturn),
      iff_of_false (by decide) (fun h => h.2 ⟨n, henc⟩),
      iff_of_true rfl ⟨hturn, n, henc, hcell⟩,
      iff_of_false (by simp) ?_, iff_of_true (by simp) (Or.inr (Or.inr ⟨n, henc, hcell⟩))⟩
    rintro ⟨_, m, hm, hmc⟩
    rw [encodesCell_unique position m n hm hpos] at hmc
    exact hcell hmc
  · have henc : encodesCell position n := ⟨by omega, hpos⟩
    obtain ⟨w, hw⟩ := checkWinner_placeSymbol_total room.board n (playerSymbol room player) hlen hn
    rcases hres with ⟨hnone, _⟩ | ⟨w2, _, hres⟩
    · rw [hw] at hnone
      cases hnone
    · refine ⟨_, _, hres, iff_of_false (by simp) (fun h => h hturn),
        iff_of_false (by simp) (fun h => h.2 ⟨n, henc⟩),
        iff_of_false (by simp) ?_,
        iff_of_true rfl ⟨hturn, n, henc, hcell⟩, iff_of_false (by simp) ?_⟩
      · rintro ⟨_, m, hm, hmc⟩
        rw [encodesCell_unique position m n hm hpos] at hmc
        exact hmc hcell
      · rintro (h | h | ⟨m, hm, hmc⟩)
        · exact h hturn
        · exact h ⟨n, henc⟩
        · rw [encodesCell_unique position m n hm hpos] at hmc
          exact hmc hcell

/-! ## Claims -/

/-- C1: on a board of exactly 9 cells over the alphabet space, X, O the winner
scan returns a result; the result is non-empty iff one of the eight lines
(rows, columns, diagonals) consists of three equal non-space cells; it is the
symbol of the first such line in the listed order; it is the empty string when
there is no such line. -/
theorem checkWinner_spec (board : List Char) (hlen : board.length = 9)
    (hcells : ∀ c ∈ board, validCell c) :
    ∃ r, checkWinner board = some r ∧
      (r ≠ "" ↔ ∃ p ∈ specLines, lineUniform board p) ∧
      (∀ pre p post, specLines = pre ++ p :: post → lineUniform board p →
        (∀ q ∈ pre, ¬ lineUniform board q) →
        ∃ c, validCell c ∧ c ≠ ' ' ∧ board[p.1]? = some c ∧ r = String.singleton c) ∧
      ((∀ p ∈ specLines, ¬ lineUniform board p) → r = "") := by
  have hb := winPatterns_inBounds board hlen
  have hfirst : ∀ pre p post, specLines = pre ++ p :: post → lineUniform board p →
      (∀ q ∈ pre, ¬ lineUniform board q) →
      ∃ c, validCell c ∧ c ≠ ' ' ∧ board[p.1]? = some c ∧
        checkWinner board = some (String.singleton c) := by
    intro pre p post he hu hpre
    have he2 : winPatterns = pre ++ p :: post := he
    have hpb : patternInBounds board p := hb p (by rw [he2]; simp)
    have hp1 : p.1 < board.length := hpb.1
    rw [he2] at hb
    refine ⟨board[p.1], hcells _ (List.getElem_mem _), ?_, List.getElem?_eq_getElem hp1, ?_⟩
    · obtain ⟨c, hc, h1, _⟩ := hu
      rw [List.getElem?_eq_getElem hp1] at h1
      cases h1
      exact hc
    · unfold checkWinner
      rw [he2, checkWinnerLoop_first board pre p post hb hu hpre,
        List.getElem?_eq_getElem hp1]
      rfl
  have hnone : (∀ p ∈ specLines, ¬ lineUniform board p) → checkWinner board = some "" :=
    fun hn => checkWinnerLoop_none board winPatterns hb hn
  obtain ⟨r, hr⟩ := checkWinner_total board hlen
  refine ⟨r, hr, ⟨?_, ?_⟩, ?_, ?_⟩
  · intro hne
    by_contra hcon
    have := hnone (fun p hp hu => hcon ⟨p, hp, hu⟩)
    rw [hr] at this
    exact hne (Option.some.inj this)
  · intro hex
    obtain ⟨pre, p, post, he, hu, hpre⟩ := exists_first_uniform board specLines hex
    obtain ⟨c, _, _, _, hc⟩ := hfirst pre p post he hu hpre
    rw [hr] at hc
    rw [Option.some.inj hc]
    exact singleton_ne_empty c
  · intro pre p post he hu hpre
    obtain ⟨c, hv, hc, h1, h2⟩ := hfirst pre p post he hu hpre
    rw [hr] at h2
    exact ⟨c, hv, hc, h1, Option.some.inj h2⟩
  · intro hn
    have := hnone hn
    rw [hr] at this
    exact Option.some.inj this

/-- C1 witness: the board `OXX / OX· / O··` has rows and the anti-diagonal
open, the first column uniform, and the scan returns `"O"`. -/
theorem checkWinner_spec_witness :
    ['O', 'X', 'X', 'O', 'X', ' ', 'O', ' ', ' '].length = 9 ∧
    ∃ r, checkWinner ['O', 'X', 'X', 'O', 'X', ' ', 'O', ' ', ' '] = some r ∧
      (r ≠ "" ↔ ∃ p ∈ specLines,
        lineUniform ['O', 'X', 'X', 'O', 'X', ' ', 'O', ' ', ' '] p) ∧
      (∀ pre p post, specLines = pre ++ p :: post →
        lineUniform ['O', 'X', 'X', 'O', 'X', ' ', 'O', ' ', ' '] p →
        (∀ q ∈ pre, ¬ lineUniform ['O', 'X', 'X', 'O', 'X', ' ', 'O', ' ', ' '] q) →
        ∃ c, validCell c ∧ c ≠ ' ' ∧
          ['O', 'X', 'X', 'O', 'X', ' ', 'O', ' ', ' '][p.1]? = some c ∧
          r = String.singleton c) ∧
      ((∀ p ∈ specLines, ¬ lineUniform ['O', 'X', 'X', 'O', 'X', ' ', 'O', ' ', ' '] p) →
        r = "") :=
  ⟨by decide, checkWinner_spec _ (by decide) (by simp [validCell])⟩

/-- C2: on an existing room with a 9-cell board `processMove` returns, and it
rejects the move with "it's not your turn" iff the turn differs from the
player; else with "invalid position" iff the position is not a string-encoded
integer in 0..8; else with "position already occupied" iff the target cell is
not empty; it accepts the move in every other case.  A string-encoded integer
is a decimal numeral, stated without reference to the parser. -/
theorem processMove_rejection_order (s : Store) (roomID player position : String)
    (room : Room) (hroom : s roomID = some room) (hlen : room.board.length = 9) :
    ∃ err s1, processMove s roomID player position = some (err, s1) ∧
      (err = some "it's not your turn" ↔ room.turn ≠ player) ∧
      (err = some "invalid position" ↔
        room.turn = player ∧ ¬ ∃ n, cellNumeral position n) ∧
      (err = some "position already occupied" ↔
        room.turn = player ∧ ∃ n, cellNumeral position n ∧ room.board[n]? ≠ some ' ') ∧
      (err = none ↔
        room.turn = player ∧ ∃ n, cellNumeral position n ∧ room.board[n]? = some ' ') ∧
      (err ≠ none ↔
        room.turn ≠ player ∨ (¬ ∃ n, cellNumeral position n) ∨
          ∃ n, cellNumeral position n ∧ room.board[n]? ≠ some ' ') := by
  obtain ⟨err, s1, hres, h1, h2, h3, h4, h5⟩ :=
    processMove_rejection_cases s roomID player position room hroom hlen
  refine ⟨err, s1, hres, h1, ?_, ?_, ?_, ?_⟩
  · simp only [cellNumeral_iff_encodesCell]
    exact h2
  · simp only [cellNumeral_iff_encodesCell]
    exact h3
  · simp only [cellNumeral_iff_encodesCell]
    exact h4
  · simp only [cellNumeral_iff_encodesCell]
    exact h5

/-- C2 witness: in the started game of alice and bob, alice's move at "4" is
accepted, bob's move is refused with "it's not your turn", the positions
"abc" and "9" are refused with "invalid position"; after alice has played
cell 0, bob's move at "0" is refused with "position already occupied". -/
theorem processMove_rejection_order_witness :
    (startedStore "R" = some startedRoom ∧ startedRoom.board.length = 9 ∧
      aliceMovedStore "R" = some aliceMovedRoom ∧ aliceMovedRoom.board.length = 9) ∧
    (∃ s1, processMove startedStore "R" "alice" "4" = some (none, s1)) ∧
    (∃ s1, processMove startedStore "R" "bob" "4" = some (some "it's not your turn", s1)) ∧
    (∃ s1, processMove startedStore "R" "alice" "abc" = some (some "invalid position", s1)) ∧
    (∃ s1, processMove startedStore "R" "alice" "9" = some (some "invalid position", s1)) ∧
    (∃ s1, processMove aliceMovedStore "R" "bob" "0"
      = some (some "position already occupied", s1)) := by
  have hfour : cellNumeral "4" 4 := ⟨[], [], '4', rfl, rfl, Or.inl rfl, by simp⟩
  have hzero : cellNumeral "0" 0 := ⟨[], [], '0', rfl, rfl, Or.inl rfl, by simp⟩
  have habc : ¬ ∃ n, cellNumeral "abc" n := by
    rintro ⟨n, hn⟩
    have h1 := Atoi_of_cellNumeral "abc" n hn
    have h2 : Atoi "abc" = none := by decide
    rw [h2] at h1
    cases h1
  have hnine : ¬ ∃ n, cellNumeral "9" n := by
    rintro ⟨n, hn⟩
    have h0 := (cellNumeral_iff_encodesCell "9" n).mp hn
    have h1 := h0.2
    have h2 : Atoi "9" = some ((9 : Nat) : Int) := by decide
    rw [h2] at h1
    have h3 : (9 : Nat) = n := by exact_mod_cast Option.some.inj h1
    have h4 := h0.1
    omega
  refine ⟨⟨by decide, by decide, by decide, by decide⟩, ?_, ?_, ?_, ?_, ?_⟩
  · obtain ⟨err, s1, hres, _, _, _, h4, _⟩ :=
      processMove_rejection_order startedStore "R" "alice" "4" startedRoom
        (by decide) (by decide)
    have he : err = none := h4.mpr ⟨by decide, 4, hfour, by decide⟩
    subst he
    exact ⟨s1, hres⟩
  · obtain ⟨err, s1, hres, h1, _, _, _, _⟩ :=
      processMove_rejection_order startedStore "R" "bob" "4" startedRoom
        (by decide) (by decide)
    have he : err = some "it's not your turn" := h1.mpr (by decide)
    subst he
    exact ⟨s1, hres⟩
  · obtain ⟨err, s1, hres, _, h2, _, _, _⟩ :=
      processMove_rejection_order startedStore "R" "alice" "abc" startedRoom
        (by decide) (by decide)
    have he : err = some "invalid position" := h2.mpr ⟨by decide, habc⟩
    subst he
    exact ⟨s1, hres⟩
  · obtain ⟨err, s1, hres, _, h2, _, _, _⟩ :=
      processMove_rejection_order startedStore "R" "alice" "9" startedRoom
        (by decide) (by decide)
    have he : err = some "invalid position" := h2.mpr ⟨by decide, hnine⟩
    subst he
    exact ⟨s1, hres⟩
  · obtain ⟨err, s1, hres, _, _, h3, _, _⟩ :=
      processMove_rejection_order aliceMovedStore "R" "bob" "0" aliceMovedRoom
        (by decide) (by decide)
    have he : err = some "position already occupied" :=
      h3.mpr ⟨by decide, 0, hzero, by decide⟩
    subst he
    exact ⟨s1, hres⟩

/-- C3: a move whose target cell is occupied makes `processMove` return an
error and the store it leaves is the store it was given, so the board, turn,
status and winner of the room are what they were. -/
theorem processMove_occupied_no_update (s : Store) (roomID player position : String)
    (room : Room) (n : Nat) (c : Char) (hroom : s roomID = some room)
    (hpos : Atoi position = some (n : Int)) (hcell : room.board[n]? = some c)
    (hocc : c ≠ ' ') :
    ∃ msg s1, processMove s roomID player position = some (some msg, s1) ∧ s1 = s ∧
      ∃ r1, s1 roomID = some r1 ∧ r1.board = room.board ∧ r1.turn = room.turn ∧
        r1.status = room.status ∧ r1.winner = room.winner := by
  have hne : room.board[n]? ≠ some ' ' := by
    rw [hcell]
    intro h
    exact hocc (Option.some.inj h)
  rcases processMove_cases s roomID player position room hroom with
    ⟨_, hres⟩ | ⟨_, hbad, hres⟩ | ⟨_, _, hres⟩ | ⟨_, m, hm, _, hmc, _⟩
  · exact ⟨_, s, hres, rfl, room, hroom, rfl, rfl, rfl, rfl⟩
  · exact ⟨_, s, hres, rfl, room, hroom, rfl, rfl, rfl, rfl⟩
  · exact ⟨_, s, hres, rfl, room, hroom, rfl, rfl, rfl, rfl⟩
  · rw [hpos] at hm
    have hnm : n = m := by exact_mod_cast Option.some.inj hm
    rw [hnm] at hne
    exact absurd hmc hne

/-- C3 witness: after alice has played cell 0, bob playing cell 0 is rejected
and the room is unchanged. -/
theorem processMove_occupied_no_update_witness :
    (aliceMovedStore "R" = some aliceMovedRoom ∧ Atoi "0" = some ((0 : Nat) : Int) ∧
      aliceMovedRoom.board[0]? = some 'X' ∧ 'X' ≠ ' ') ∧
    ∃ msg s1, processMove aliceMovedStore "R" "bob" "0" = some (some msg, s1) ∧
      s1 = aliceMovedStore ∧
      ∃ r1, s1 "R" = some r1 ∧ r1.board = aliceMovedRoom.board ∧
        r1.turn = aliceMovedRoom.turn ∧ r1.status = aliceMovedRoom.status ∧
        r1.winner = aliceMovedRoom.winner :=
  ⟨⟨by decide, by decide, by decide, by decide⟩,
    processMove_occupied_no_update aliceMovedStore "R" "bob" "0" aliceMovedRoom 0 'X'
      (by decide) (by decide) (by decide) (by decide)⟩

/-- C4 counterexample: in the room where alice is both user1 and user2, her
accepted move at cell 0 persists 'O', although the player equals user1. -/
theorem processMove_symbol_counterexample :
    sameNameStore "R" = some sameNameRoom ∧ sameNameRoom.board.length = 9 ∧
    "alice" = sameNameRoom.user1 ∧
    ∃ s1 r1, processMove sameNameStore "R" "alice" "0" = some (none, s1) ∧
      s1 "R" = some r1 ∧ r1.board[0]? = some 'O' ∧ r1.board[0]? ≠ some 'X' :=
  ⟨by decide, by decide, by decide, _, _, rfl, rfl, by decide, by decide⟩

/-- C4 (amended): for a room whose user1 and user2 differ, a move that
`processMove` accepts on a 9-cell board persists the old board with exactly
the cell at the encoded position replaced by the player's symbol ('X' for
user1, 'O' for user2, and 'O' exactly when the player equals user2), every
other cell unchanged, and persists as turn user2 if the player equals user1
and user1 otherwise. -/
theorem processMove_accepted_effect (s : Store) (roomID player position : String)
    (room : Room) (s1 : Store) (hroom : s roomID = some room)
    (hlen : room.board.length = 9) (hne : room.user1 ≠ room.user2)
    (hacc : processMove s roomID player position = some (none, s1)) :
    ∃ n r1, encodesCell position n ∧ room.board[n]? = some ' ' ∧ s1 roomID = some r1 ∧
      r1.board.length = 9 ∧
      r1.board[n]? = some (if player = room.user2 then 'O' else 'X') ∧
      (player = room.user1 → r1.board[n]? = some 'X') ∧
      (player = room.user2 → r1.board[n]? = some 'O') ∧
      (∀ i, i ≠ n → r1.board[i]? = room.board[i]?) ∧
      r1.turn = (if player = room.user1 then room.user2 else room.user1) := by
  obtain ⟨_, n, hpos, hn, hcell, w, _, rfl⟩ :=
    processMove_accepted s roomID player position room s1 hroom hacc
  have hat : ∀ c : Char, (placeSymbol room.board n c)[n]? = some c := by
    intro c
    rw [placeSymbol_eq_set room.board n c hn, List.getElem?_set_self]
    simp [hn]
  refine ⟨n, _, ⟨by omega, hpos⟩, hcell, storeAfterMove_same s roomID room player n w hroom,
    ?_, ?_, ?_, ?_, ?_, rfl⟩
  · exact (placeSymbol_length room.board n _ hn).trans hlen
  · exact hat _
  · intro hp
    have h2 : player ≠ room.user2 := fun h => hne (hp.symm.trans h)
    have h3 : playerSymbol room player = 'X' := by simp [playerSymbol, h2]
    exact h3 ▸ hat (playerSymbol room player)
  · intro hp
    have h3 : playerSymbol room player = 'O' := by simp [playerSymbol, hp]
    exact h3 ▸ hat (playerSymbol room player)
  · intro i hi
    show (placeSymbol room.board n (playerSymbol room player))[i]? = room.board[i]?
    rw [placeSymbol_eq_set room.board n _ hn]
    exact List.getElem?_set_ne (Ne.symm hi)

/-- C4 witness: alice's first move at cell 0 in the started game. -/
theorem processMove_accepted_effect_witness :
    (startedStore "R" = some startedRoom ∧ startedRoom.board.length = 9 ∧
      startedRoom.user1 ≠ startedRoom.user2 ∧
      processMove startedStore "R" "alice" "0" = some (none, aliceMovedStore)) ∧
    ∃ n r1, encodesCell "0" n ∧ startedRoom.board[n]? = some ' ' ∧
      aliceMovedStore "R" = some r1 ∧ r1.board.length = 9 ∧
      r1.board[n]? = some (if "alice" = startedRoom.user2 then 'O' else 'X') ∧
      ("alice" = startedRoom.user1 → r1.board[n]? = some 'X') ∧
      ("alice" = startedRoom.user2 → r1.board[n]? = some 'O') ∧
      (∀ i, i ≠ n → r1.board[i]? = startedRoom.board[i]?) ∧
      r1.turn = (if "alice" = startedRoom.user1 then startedRoom.user2
        else startedRoom.user1) :=
  ⟨⟨by decide, by decide, by decide, rfl⟩,
    processMove_accepted_effect startedStore "R" "alice" "0" startedRoom aliceMovedStore
      (by decide) (by decide) (by decide) rfl⟩

/-- C5: for every accepted move producing board `b1`, the persisted status is
"finished" with winner equal to `checkWinner b1` when some line of `b1` is
uniform and non-empty; otherwise it is "tie" with empty winner when `b1` has
no empty cell; otherwise it is "ongoing" with empty winner. -/
theorem processMove_status (s : Store) (roomID player position : String)
    (room : Room) (s1 : Store) (hroom : s roomID = some room)
    (hacc : processMove s roomID player position = some (none, s1)) :
    ∃ r1, s1 roomID = some r1 ∧
      ((∃ p ∈ specLines, lineUniform r1.board p) →
        r1.status = "finished" ∧ checkWinner r1.board = some r1.winner ∧ r1.winner ≠ "") ∧
      ((¬ ∃ p ∈ specLines, lineUniform r1.board p) → ' ' ∉ r1.board →
        r1.status = "tie" ∧ r1.winner = "") ∧
      ((¬ ∃ p ∈ specLines, lineUniform r1.board p) → ' ' ∈ r1.board →
        r1.status = "ongoing" ∧ r1.winner = "") := by
  obtain ⟨_, n, _, _, _, w, hw, rfl⟩ :=
    processMove_accepted s roomID player position room s1 hroom hacc
  have hsound := checkWinnerLoop_sound _ winPatterns w hw
  refine ⟨_, storeAfterMove_same s roomID room player n w hroom, ?_, ?_, ?_⟩
  · intro hline
    have hne : w ≠ "" := hsound.mpr hline
    exact ⟨by simp [moveStatus, hne], hw, hne⟩
  · intro hline hfull
    have hw0 : w = "" := by
      by_contra h
      exact hline (hsound.mp h)
    have hc : contains (placeSymbol room.board n (playerSymbol room player)) ' ' = false := by
      rw [Bool.eq_false_iff]
      intro h
      exact hfull ((contains_iff _ _).mp h)
    exact ⟨by simp [moveStatus, hw0, hc], hw0⟩
  · intro hline hopen
    have hw0 : w = "" := by
      by_contra h
      exact hline (hsound.mp h)
    have hc : contains (placeSymbol room.board n (playerSymbol room player)) ' ' = true :=
      (contains_iff _ _).mpr hopen
    exact ⟨by simp [moveStatus, hw0, hc], hw0⟩

/-- C5 witness: X completing the row 0, 1, 2 gives status "finished" and
winner "X"; the move filling the board without a line gives status "tie" and
an empty winner. -/
theorem processMove_status_witness :
    (rowPendingStore "R" = some rowPendingRoom ∧
      tiePendingStore "R" = some tiePendingRoom) ∧
    (∃ s1 r1, processMove rowPendingStore "R" "alice" "2" = some (none, s1) ∧
      s1 "R" = some r1 ∧ r1.board = ['X', 'X', 'X', 'O', 'O', ' ', ' ', ' ', ' '] ∧
      r1.status = "finished" ∧ r1.winner = "X") ∧
    (∃ s1 r1, processMove tiePendingStore "R" "alice" "8" = some (none, s1) ∧
      s1 "R" = some r1 ∧ r1.board = ['X', 'O', 'X', 'X', 'O', 'O', 'O', 'X', 'X'] ∧
      r1.status = "tie" ∧ r1.winner = "") := by
  refine ⟨⟨by decide, by decide⟩, ?_, ?_⟩
  · obtain ⟨r1, h1, hfin, _, _⟩ :=
      processMove_status rowPendingStore "R" "alice" "2" rowPendingRoom
        (applyOps rowPendingStore [.move "R" "alice" "2"]) (by decide) rfl
    have hb : r1.board = ['X', 'X', 'X', 'O', 'O', ' ', ' ', ' ', ' '] := by
      have h2 : applyOps rowPendingStore [.move "R" "alice" "2"] "R" =
          some { rowPendingRoom with
            board := ['X', 'X', 'X', 'O', 'O', ' ', ' ', ' ', ' ']
            turn := "bob", status := "finished", winner := "X" } := by decide
      rw [h2] at h1
      rw [← Option.some.inj h1]
    have hline : ∃ p ∈ specLines, lineUniform r1.board p := by
      rw [hb]
      exact ⟨(0, 1, 2), by decide, by decide⟩
    obtain ⟨hst, hwin, _⟩ := hfin hline
    rw [hb] at hwin
    exact ⟨_, r1, rfl, h1, hb, hst, (Option.some.inj hwin).symm⟩
  · obtain ⟨r1, h1, _, htie, _⟩ :=
      processMove_status tiePendingStore "R" "alice" "8" tiePendingRoom
        (applyOps tiePendingStore [.move "R" "alice" "8"]) (by decide) rfl
    have hb : r1.board = ['X', 'O', 'X', 'X', 'O', 'O', 'O', 'X', 'X'] := by
      have h2 : applyOps tiePendingStore [.move "R" "alice" "8"] "R" =
          some { tiePendingRoom with
            board := ['X', 'O', 'X', 'X', 'O', 'O', 'O', 'X', 'X']
            turn := "bob", status := "tie", winner := "" } := by decide
      rw [h2] at h1
      rw [← Option.some.inj h1]
    have hnoline : ¬ ∃ p ∈ specLines, lineUniform r1.board p := by
      rw [hb]
      decide
    have hfull : ' ' ∉ r1.board := by
      rw [hb]
      decide
    obtain ⟨hst, hwin⟩ := htie hnoline hfull
    exact ⟨_, r1, rfl, h1, hb, hst, hwin⟩

/-- C6 (code evaluated at the failing input): in the room created by alice,
with user2 empty, `JoinRoom("R", "alice")` returns no error and stores alice
as user2, so the room has user2 equal to user1. -/
theorem JoinRoom_admits_own_nickname :
    createdStore "R" = some createdRoom ∧ createdRoom.user2 = "" ∧
    createdRoom.user1 = "alice" ∧
    (JoinRoom createdStore "R" "alice").1 = none ∧
    ∃ r1, (JoinRoom createdStore "R" "alice").2 "R" = some r1 ∧
      r1.user2 = "alice" ∧ r1.user2 = r1.user1 :=
  ⟨by decide, by decide, by decide, by decide, { createdRoom with user2 := "alice" },
    by decide, by decide, by decide⟩

/-- C7: `StartGame` fails with "room not found" when the room is absent and
with "cannot start game, room is not full" when user2 is empty, leaving the
store as it was in both cases; otherwise it returns no error, sets the status
to "started" and changes no other field and no other room.  Hence whenever
`StartGame` succeeds, user2 of the room is non-empty at that moment. -/
theorem StartGame_spec (s : Store) (roomID : String) :
    (s roomID = none → StartGame s roomID = (some "room not found", s)) ∧
    (∀ room, s roomID = some room → room.user2 = "" →
      StartGame s roomID = (some "cannot start game, room is not full", s)) ∧
    (∀ room, s roomID = some room → room.user2 ≠ "" →
      (StartGame s roomID).1 = none ∧
      (StartGame s roomID).2 roomID = some { room with status := "started" } ∧
      ∀ k, k ≠ roomID → (StartGame s roomID).2 k = s k) ∧
    (∀ room, s roomID = some room → (StartGame s roomID).1 = none →
      room.user2 ≠ "" ∧ ∃ r1, (StartGame s roomID).2 roomID = some r1 ∧
        r1.status = "started") := by
  refine ⟨?_, ?_, ?_, ?_⟩
  · intro h
    simp [StartGame, h]
  · intro room h hu
    simp [StartGame, h, hu]
  · intro room h hu
    refine ⟨by simp [StartGame, h, hu], by simp [StartGame, h, hu, HSet_same], ?_⟩
    intro k hk
    simp [StartGame, h, hu, HSet_other _ _ _ _ hk]
  · intro room h hnil
    have hu : room.user2 ≠ "" := by
      intro hu
      simp [StartGame, h, hu] at hnil
    exact ⟨hu, { room with status := "started" }, by simp [StartGame, h, hu, HSet_same], rfl⟩

/-- C7 witness: `StartGame` on the room alice created: refused while user2 is
empty, accepted once bob has joined. -/
theorem StartGame_spec_witness :
    StartGame createdStore "R" = (some "cannot start game, room is not full", createdStore) ∧
    StartGame emptyStore "R" = (some "room not found", emptyStore) ∧
    (StartGame (applyOps createdStore [.join "R" "bob"]) "R").1 = none :=
  ⟨(StartGame_spec createdStore "R").2.1 createdRoom (by decide) (by decide),
    (StartGame_spec emptyStore "R").1 (by decide), by decide⟩

/-- The capacity check of a connection that sees two registered connections
answers "Room is full" and leaves the registry as it was. -/
theorem capacityCheck_full_refused (σ : Server) (conn : Conn) (roomID : String)
    (hphase : σ.phase conn = .statusOk roomID)
    (hfull : (connectionsOf σ.clients roomID).length ≥ 2) :
    (step σ (.capacityCheck conn)).phase conn = .refused "Room is full" ∧
      (step σ (.capacityCheck conn)).clients = σ.clients := by
  simp [step, hphase, hfull]

/-- C8 (code evaluated at the failing input): three clients whose capacity
checks all run before any registration are all registered, so room `R` has
three registered connections. -/
theorem capacity_race_registers_three :
    connectionsOf raceServer.clients "R" = [1, 2, 3] ∧
    (connectionsOf raceServer.clients "R").length > 2 ∧
    raceServer.phase 1 = .registered "R" ∧ raceServer.phase 2 = .registered "R" ∧
    raceServer.phase 3 = .registered "R" :=
  ⟨by decide, by decide, by decide, by decide, by decide⟩

/-- C10 counterexample: after alice's first move in the started game the
status of the room is "ongoing", none of waiting, started, finished, tie. -/
theorem status_enum_counterexample :
    ∃ r1, applyOps (CreateRoom emptyStore "R" "alice").2
        [.join "R" "bob", .start "R", .move "R" "alice" "0"] "R" = some r1 ∧
      r1.status = "ongoing" ∧
      ¬ (r1.status = "waiting" ∨ r1.status = "started" ∨ r1.status = "finished" ∨
        r1.status = "tie") :=
  ⟨aliceMovedRoom, by decide, by decide, by decide⟩

/-- C10 (amended): in every room state reachable from `CreateRoom` by any
sequence of `JoinRoom`, `RemoveUser`, `StartGame` and make_move operations,
on this or any other room, the room exists and its status is one of waiting,
started, ongoing, finished, tie. -/
theorem status_written_invariant (s0 : Store) (roomID admin : String) (ops : List RoomOp) :
    ∃ room, applyOps (CreateRoom s0 roomID admin).2 ops roomID = some room ∧
      (room.status = "waiting" ∨ room.status = "started" ∨ room.status = "ongoing" ∨
        room.status = "finished" ∨ room.status = "tie") := by
  apply applyOps_status
  exact ⟨_, CreateRoom_same s0 roomID admin, Or.inl rfl⟩

/-- C9 counterexample: alice creates the room, bob joins, the game starts,
alice's move at cell 0 is accepted and makes bob the player to move; after
`RemoveUser` the turn is still "bob", neither user1 nor user2.  The same room
state is reached by the server run in which the move arrives on a registered
connection. -/
theorem turn_invariant_counterexample :
    processMove startedStore "R" "alice" "0" = some (none, aliceMovedStore) ∧
    ∃ r1, applyOps (CreateRoom emptyStore "R" "alice").2
        [.join "R" "bob", .start "R", .move "R" "alice" "0", .remove "R"] "R" = some r1 ∧
      (run (serverAfterCreate emptyStore "R" "alice") removalEvents).store "R" = some r1 ∧
      r1.turn = "bob" ∧ r1.user1 = "alice" ∧ r1.user2 = "" ∧
      ¬ (r1.turn = r1.user1 ∨ r1.turn = r1.user2) :=
  ⟨rfl, { aliceMovedRoom with user2 := "" }, by decide, by decide, by decide, by decide,
    by decide, by decide⟩

/-- C9 (amended): in every server state reachable from `CreateRoom` by any
interleaving of `JoinRoom`, `StartGame`, the steps of connection handling and
make_move messages processed on a registered connection, with no `RemoveUser`,
the room exists and its turn equals its user1 or its user2. -/
theorem turn_invariant_without_remove (s0 : Store) (roomID admin : String)
    (events : List Event) (hno : ∀ e ∈ events, e.isRemoveUser = false) :
    ∃ room, (run (serverAfterCreate s0 roomID admin) events).store roomID = some room ∧
      (room.turn = room.user1 ∨ room.turn = room.user2) := by
  obtain ⟨room, hroom, h1, _, _⟩ :=
    run_turnInv roomID events _ hno (serverAfterCreate_turnInv s0 roomID admin)
  refine ⟨room, hroom, ?_⟩
  rcases h1 with h | ⟨h, _⟩
  · exact Or.inl h
  · exact Or.inr h

/-- C9 witness: alice and bob join, start, connect and play two moves. -/
theorem turn_invariant_without_remove_witness :
    (∀ e ∈ playEvents, e.isRemoveUser = false) ∧
    ∃ room, (run (serverAfterCreate emptyStore "R" "alice") playEvents).store "R" = some room ∧
      (room.turn = room.user1 ∨ room.turn = room.user2) :=
  ⟨by simp [playEvents, Event.isRemoveUser],
    turn_invariant_without_remove emptyStore "R" "alice" playEvents
      (by simp [playEvents, Event.isRemoveUser])⟩

/-- C11: in every room state reachable from `CreateRoom` by any sequence of
`JoinRoom`, `RemoveUser`, `StartGame` and make_move operations the board has
exactly 9 cells, each a space, X or O; there every pattern index of
`checkWinner` is inside the board, `processMove` never panics, and whenever
`processMove` reads `board[pos]` the index is inside the board. -/
theorem board_invariant (s0 : Store) (roomID admin : String) (ops : List RoomOp) :
    ∃ room, applyOps (CreateRoom s0 roomID admin).2 ops roomID = some room ∧
      room.board.length = 9 ∧ (∀ c ∈ room.board, validCell c) ∧
      (∀ p ∈ winPatterns, p.1 < room.board.length ∧ p.2.1 < room.board.length ∧
        p.2.2 < room.board.length) ∧
      (∀ player position,
        processMove (applyOps (CreateRoom s0 roomID admin).2 ops) roomID player position
          ≠ none) ∧
      (∀ player position err s1,
        processMove (applyOps (CreateRoom s0 roomID admin).2 ops) roomID player position
          = some (err, s1) →
        err = some "position already occupied" ∨ err = none →
        ∃ n : Nat, Atoi position = some (n : Int) ∧ n < room.board.length) := by
  obtain ⟨room, hroom, hlen, hcells⟩ :=
    applyOps_boardInv roomID ops _ (CreateRoom_boardInv s0 roomID admin)
  refine ⟨room, hroom, hlen, hcells, winPatterns_inBounds room.board hlen, ?_, ?_⟩
  · intro player position
    exact processMove_no_panic _ roomID player position room hroom hlen
  · intro player position err s1 hres herr
    rcases processMove_cases _ roomID player position room hroom with
      ⟨_, h1⟩ | ⟨_, _, h1⟩ | ⟨_, ⟨n, hpos, hn, _⟩, _⟩ | ⟨_, n, hpos, hn, _, _⟩
    · rw [h1] at hres
      have he := (Prod.mk.inj (Option.some.inj hres)).1
      rcases herr with h | h <;> rw [h] at he <;> simp at he
    · rw [h1] at hres
      have he := (Prod.mk.inj (Option.some.inj hres)).1
      rcases herr with h | h <;> rw [h] at he <;> simp at he
    · exact ⟨n, hpos, hn⟩
    · exact ⟨n, hpos, hn⟩

/-- C12 counterexample: nine alternating accepted moves of alice and bob, no
line complete before the last one, end on the board `XXX / XOO / XOO`, where
both the row 0-1-2 and the column 0-3-6 are uniform.  When play goes on after
X has completed the row 0-1-2, O completes the row 3-4-5, and scanning the
patterns in reverse order returns "O" where `checkWinner` returns "X". -/
theorem single_line_counterexample :
    (movesBeforeWin "R" createdStore doubleLineOps = true ∧
      ∃ r1, applyOps createdStore doubleLineOps "R" = some r1 ∧
        r1.board = ['X', 'X', 'X', 'X', 'O', 'O', 'X', 'O', 'O'] ∧
        ((0, 1, 2) : Nat × Nat × Nat) ∈ specLines ∧ ((0, 3, 6) : Nat × Nat × Nat) ∈ specLines ∧
        lineUniform r1.board (0, 1, 2) ∧ lineUniform r1.board (0, 3, 6)) ∧
    (∃ r2, applyOps createdStore playOnOps "R" = some r2 ∧
      r2.board = ['X', 'X', 'X', 'O', 'O', 'O', ' ', ' ', ' '] ∧
      checkWinner r2.board = some "X" ∧
      checkWinnerLoop r2.board winPatterns.reverse = some "O") :=
  ⟨⟨by decide,
      { startedRoom with
        board := ['X', 'X', 'X', 'X', 'O', 'O', 'X', 'O', 'O']
        turn := "bob", status := "finished", winner := "X" },
      by decide, by decide, by decide, by decide, by decide, by decide⟩,
    { startedRoom with
      board := ['X', 'X', 'X', 'O', 'O', 'O', ' ', ' ', ' ']
      turn := "alice", status := "finished", winner := "X" },
    by decide, by decide, by decide, by decide⟩

/-- C12 (amended): for every board reachable from the empty 9-cell board of
`CreateRoom` by operations in which each move is made while no line is
complete, all uniform non-empty lines hold the same symbol (there can be more
than one such line), so scanning the eight patterns in any order gives the
result of `checkWinner`. -/
theorem lines_share_symbol (s0 : Store) (roomID admin : String) (ops : List RoomOp)
    (hplay : movesBeforeWin roomID (CreateRoom s0 roomID admin).2 ops = true) :
    ∃ room, applyOps (CreateRoom s0 roomID admin).2 ops roomID = some room ∧
      (∀ p ∈ specLines, ∀ q ∈ specLines, lineUniform room.board p → lineUniform room.board q →
        room.board[p.1]? = room.board[q.1]?) ∧
      (∀ ps : List (Nat × Nat × Nat), ps.Perm winPatterns →
        checkWinnerLoop room.board ps = checkWinner room.board) := by
  obtain ⟨room, hroom, hlen, hsame⟩ :=
    applyOps_lineInv roomID ops _ hplay (CreateRoom_lineInv s0 roomID admin)
  exact ⟨room, hroom, hsame, checkWinnerLoop_perm room.board hlen hsame⟩

/-- C12 witness: the nine moves that end with two uniform lines of X. -/
theorem lines_share_symbol_witness :
    movesBeforeWin "R" (CreateRoom emptyStore "R" "alice").2 doubleLineOps = true ∧
    ∃ room, applyOps (CreateRoom emptyStore "R" "alice").2 doubleLineOps "R" = some room ∧
      (∀ p ∈ specLines, ∀ q ∈ specLines, lineUniform room.board p → lineUniform room.board q →
        room.board[p.1]? = room.board[q.1]?) ∧
      (∀ ps : List (Nat × Nat × Nat), ps.Perm winPatterns →
        checkWinnerLoop room.board ps = checkWinner room.board) :=
  ⟨by decide, lines_share_symbol emptyStore "R" "alice" doubleLineOps (by decide)⟩

/-- C13 (code evaluated at the failing input): with the single connection 1
registered for room `R`, a broadcast whose send fails leaves `R` mapped to the
empty connection list, where `disconnectRoom` of that connection removes the
entry; the same registry state is reached by the server run. -/
theorem broadcast_keeps_empty_entry :
    loneRegistry "R" = some [1] ∧
    BroadcastMessage loneRegistry "R" (fun _ => true) "R" = some [] ∧
    disconnectRoom loneRegistry "R" 1 "R" = none ∧
    (run (serverAfterCreate emptyStore "R" "alice") failedBroadcastEvents).clients "R"
      = some [] :=
  ⟨by decide, by decide, by decide, by decide⟩

/-- C14 counterexample: alice completes the row 6-7-8, the accepted move sets
status "finished" and winner "X"; bob's later move at cell 2 is accepted,
completes the row 0-1-2 and replaces the winner by "O". -/
theorem final_result_counterexample :
    finishPendingStore "R" = some finishPendingRoom ∧
    processMove finishPendingStore "R" "alice" "8" = some (none, finishedStore) ∧
    finishedStore "R" = some finishedRoom ∧ finishedRoom.status = "finished" ∧
    finishedRoom.winner = "X" ∧
    ∃ s2 r2, processMove finishedStore "R" "bob" "2" = some (none, s2) ∧
      s2 "R" = some r2 ∧ r2.status = "finished" ∧ r2.winner = "O" ∧
      r2.winner ≠ finishedRoom.winner :=
  ⟨by decide, rfl, by decide, by decide, by decide,
    applyOps finishedStore [.move "R" "bob" "2"],
    { finishedRoom with
      board := ['O', 'O', 'O', ' ', ' ', ' ', 'X', 'X', 'X']
      turn := "alice", winner := "O" },
    rfl, by decide, by decide, by decide, by decide⟩

/-- C14 (amended): for every room whose status has been set to "finished" by
an accepted move, after any later make_move operations the status is still
"finished" and the winner is non-empty and is the result of `checkWinner` on
the current board; a further make_move that is rejected leaves the room, and
so its winner, unchanged. -/
theorem finished_status_kept (s : Store) (roomID player position : String) (room : Room)
    (s1 : Store) (r1 : Room) (ops : List RoomOp) (hroom : s roomID = some room)
    (hacc : processMove s roomID player position = some (none, s1))
    (hr1 : s1 roomID = some r1) (hfin : r1.status = "finished")
    (hmoves : ∀ op ∈ ops, op.isMove = true) :
    ∃ r2, applyOps s1 ops roomID = some r2 ∧ r2.status = "finished" ∧ r2.winner ≠ "" ∧
      checkWinner r2.board = some r2.winner ∧
      ∀ player2 position2 msg s2,
        processMove (applyOps s1 ops) roomID player2 position2 = some (some msg, s2) →
        s2 roomID = some r2 := by
  obtain ⟨_, n, _, _, _, w, hw, hs1⟩ :=
    processMove_accepted s roomID player position room s1 hroom hacc
  have hinit : finishedInv roomID s1 := by
    have hsame := storeAfterMove_same s roomID room player n w hroom
    rw [← hs1, hr1] at hsame
    have hr := Option.some.inj hsame
    have hst : moveStatus w (placeSymbol room.board n (playerSymbol room player)) = "finished" := by
      rw [hr] at hfin
      exact hfin
    have hw0 : w ≠ "" := (moveStatus_finished_iff w _).mp hst
    obtain ⟨p, hp, hu⟩ := (checkWinnerLoop_sound _ winPatterns w hw).mp hw0
    refine ⟨r1, hr1, hfin, ?_, ?_, p, hp, ?_⟩
    · rw [hr]
      exact hw0
    · rw [hr]
      exact hw
    · rw [hr]
      exact hu
  obtain ⟨r2, hr2, hst2, hwin2, hcw2, _⟩ := applyOps_finishedInv roomID ops s1 hmoves hinit
  refine ⟨r2, hr2, hst2, hwin2, hcw2, ?_⟩
  intro player2 position2 msg s2 hres
  rcases processMove_cases _ roomID player2 position2 r2 hr2 with
    ⟨_, h1⟩ | ⟨_, _, h1⟩ | ⟨_, _, h1⟩ | ⟨_, m, _, _, _, h1⟩
  · rw [h1] at hres
    rw [← (Prod.mk.inj (Option.some.inj hres)).2]
    exact hr2
  · rw [h1] at hres
    rw [← (Prod.mk.inj (Option.some.inj hres)).2]
    exact hr2
  · rw [h1] at hres
    rw [← (Prod.mk.inj (Option.some.inj hres)).2]
    exact hr2
  · rcases h1 with ⟨_, h1⟩ | ⟨w2, _, h1⟩
    · rw [h1] at hres
      cases hres
    · rw [h1] at hres
      have he := (Prod.mk.inj (Option.some.inj hres)).1
      cases he

/-- C14 witness: after alice has completed the row 6-7-8, bob plays cell 2 and
alice plays cell 3. -/
theorem finished_status_kept_witness :
    (finishPendingStore "R" = some finishPendingRoom ∧
      processMove finishPendingStore "R" "alice" "8" = some (none, finishedStore) ∧
      finishedStore "R" = some finishedRoom ∧ finishedRoom.status = "finished") ∧
    ∃ r2, applyOps finishedStore [.move "R" "bob" "2", .move "R" "alice" "3"] "R" = some r2 ∧
      r2.status = "finished" ∧ r2.winner ≠ "" ∧ checkWinner r2.board = some r2.winner ∧
      ∀ player2 position2 msg s2,
        processMove (applyOps finishedStore [.move "R" "bob" "2", .move "R" "alice" "3"])
          "R" player2 position2 = some (some msg, s2) →
        s2 "R" = some r2 :=
  ⟨⟨by decide, rfl, by decide, by decide⟩,
    finished_status_kept finishPendingStore "R" "alice" "8" finishPendingRoom finishedStore
      finishedRoom [.move "R" "bob" "2", .move "R" "alice" "3"] (by decide) rfl (by decide)
      (by decide) (by simp [RoomOp.isMove])⟩

end TicTacToe
